import Mathlib

/-!
Verification development for the Canonical Correlation Forest (CCF) trainer
of the `ubc_primitives` repository.

Shallow embedding conventions:
* numpy float arrays are modelled over `ℚ` (exact arithmetic);
  `-inf` / `+inf` sentinel values used by the split search are modelled as
  `Option ℚ` with `none` playing the role of the infinity that the code
  writes there (the role is stated at each definition);
* `np.nan` entries of the `iFeatureNum` grouping vector are modelled as
  `none` in a `List (Option ℚ)`;
* the global numpy random state, and the library routines that are not part
  of the analysed sources (componentAnalysis, twoPointMaxMarginSplit,
  regCCA_alt, queryIfColumnsVary, ...), are supplied by an explicit
  environment record `Env`; a draw advances an explicit counter `t`, so a
  run is a deterministic function of `Env` and the inputs;
* Python exceptions (`assert`, numpy broadcasting failures, `NameError`)
  are modelled with `Except`.
-/

deriving instance DecidableEq for Except

namespace CCFS

abbrev Vec := List ℚ
abbrev Mat := List (List ℚ)

/-- Machine epsilon constant `eps = 2.2204e-16` from `grow_CCT.py` line 69. -/
def machEps : ℚ := 22204 / 10 ^ 20

/-- The `1e-12` tolerance of the degenerate-bag check (`grow_CCT.py` line 156). -/
def tol12 : ℚ := 1 / 10 ^ 12

/-- Dot product of two vectors (`np.dot` on 1-D slices). -/
def dotL (a b : Vec) : ℚ := (List.zipWith (· * ·) a b).sum

/-- Column `j` of a row-major matrix. -/
def colOf (m : Mat) (j : ℕ) : Vec := m.map (fun r => r.getD j 0)

/-- Number of columns of a row-major matrix (width of the first row). -/
def nCols (m : Mat) : ℕ := (m.headD []).length

/-- `X[:, idx]`: restriction of every row to the listed column indices. -/
def subCols (m : Mat) (idx : List ℕ) : Mat := m.map (fun r => idx.map (fun j => r.getD j 0))

/-- `X[idx, :]`: the listed rows, in order (fancy indexing, repeats allowed). -/
def selectRows (m : Mat) (idx : List ℕ) : Mat := idx.map (fun i => m.getD i [])

/-- Matrix product of row-major matrices. -/
def matMul (a b : Mat) : Mat :=
  a.map (fun r => (List.range (nCols b)).map (fun j => dotL r (colOf b j)))

/-- Column sums of a matrix (`np.sum(Y, axis=0)`). -/
def colSums : Mat → Vec
  | [] => []
  | [r] => r
  | r :: rs => List.zipWith (· + ·) r (colSums rs)

/-- Column means of a matrix (`np.mean(Y, axis=0)`); rows assumed nonempty. -/
def colMeans (m : Mat) : Vec := (colSums m).map (fun s => s / (m.length : ℚ))

/-- Keep the entries of `l` whose companion flag is `true` (`l[mask]`). -/
def maskSel {α : Type} (mask : List Bool) (l : List α) : List α :=
  (List.zip mask l).filterMap (fun p => if p.1 then some p.2 else none)

/-- Keep the entries of `l` whose companion flag is `false` (`l[~mask]`). -/
def maskSelNot {α : Type} (mask : List Bool) (l : List α) : List α :=
  (List.zip mask l).filterMap (fun p => if p.1 then none else some p.2)

/-- Cumulative row sums (`np.cumsum(V, axis=0)`): entry `i` is the sum of rows `0..i`. -/
def cumRows : Mat → Mat
  | [] => []
  | r :: rs => r :: (cumRows rs).map (fun s => List.zipWith (· + ·) r s)

/-- Modelled from the spec: `queryIfColumnsVary` (`commonUtils`, not under `src/`).
A column varies when some entry differs from the first entry by more than the
tolerance. -/
def colVaries (tol : ℚ) (c : Vec) : Bool :=
  match c with
  | [] => false
  | x :: xs => xs.any (fun y => decide (tol < |y - x|))

/-- Per-column variation flags of a matrix, one per listed column index. -/
def colsVary (tol : ℚ) (m : Mat) (idx : List ℕ) : List Bool :=
  idx.map (fun j => colVaries tol (colOf m j))

/-- The `iFeatureNum` grouping vector: `none` models a `np.nan` entry. -/
abbrev FeatState := List (Option ℚ)

/-- Modelled from the spec: `fastUnique` (`commonUtils`, not under `src/`) as used
on `iFeatureNum`: the sorted distinct non-NaN group values (`np.unique` sorts). -/
def fastUniqueF (fs : FeatState) : List ℚ :=
  ((fs.filterMap id).dedup).insertionSort (· ≤ ·)

/-- Ordering on value-index pairs used to model `np.sort` / `np.argsort`. -/
def keyLe (a b : ℚ × ℕ) : Prop := a.1 ≤ b.1

instance : DecidableRel keyLe := fun a b => inferInstanceAs (Decidable (a.1 ≤ b.1))

instance : IsTotal (ℚ × ℕ) keyLe := ⟨fun a b => le_total a.1 b.1⟩

instance : IsTrans (ℚ × ℕ) keyLe := ⟨fun _ _ _ h h2 => le_trans h h2⟩

/-- The list of `(value, original index)` pairs of a vector. -/
def pairsOf (u : Vec) : List (ℚ × ℕ) := u.enum.map (fun p => (p.2, p.1))

/-- Stable sort of the value-index pairs by value, modelling `np.argsort`
followed by indexing (numpy quicksort is unstable; ties are resolved here in
original order, a choice that matters to no analysed claim). -/
def argsorted (u : Vec) : List (ℚ × ℕ) := (pairsOf u).insertionSort keyLe

/-- The sorted values of a vector (`np.sort`). -/
def sortQ (u : Vec) : Vec := (argsorted u).map Prod.fst

/-! ## The options record of the classification tree grower

Fields mirror the entries of the options dict that `grow_CCT.py` reads, after
the per-forest resolution performed by `genCCF` (so `lambda` is numeric and
the boolean flags are booleans). -/

/-- The `maxDepthSplit` option: a numeric depth bound or the string `stack`. -/
inductive MaxDepthOpt where
  | num (d : ℕ)
  | stack
deriving DecidableEq, Repr

/-- Options read by `growCCT` (`grow_CCT.py`). `projectionsNonempty` models
`len(options["projections"]) != 0`; `taskWeights = none` models a
non-numeric (unset) `taskWeights`. -/
structure Options where
  lambdaN : ℕ
  minPointsForSplit : ℕ
  minPointsLeaf : ℕ
  maxDepthSplit : MaxDepthOpt
  splitCriterion : String
  dirIfEqual : String
  multiTaskGainCombination : String
  bSepPred : Bool
  bProjBoot : Bool
  bContinueProjBootDegenerate : Bool
  bRCCA : Bool
  projectionsNonempty : Bool
  XVariationTol : ℚ
  taskWeights : Option (List ℚ)

/-- The learnt tree structure (`tree` dicts of `grow_CCT.py`): a leaf stores
`Npoints` and `mean`; an internal node additionally stores `iIn`, the chosen
projection column `decisionProjection`, the threshold `paritionPoint` (field
name as in the source) and the two children. -/
inductive Tree where
  | leaf (npoints : ℕ) (mean : Vec)
  | node (npoints : ℕ) (mean : Vec) (iIn : List ℕ) (decisionProjection : Vec)
      (paritionPoint : ℚ) (lessthanChild greaterthanChild : Tree)
deriving DecidableEq, Repr

/-- Whether a tree value is a leaf (`tree["bLeaf"]`). -/
def Tree.isLeaf : Tree → Bool
  | .leaf _ _ => true
  | .node _ _ _ _ _ _ _ => false

/-- The stored point count of the root of a tree (`tree["Npoints"]`). -/
def Tree.npointsOf : Tree → ℕ
  | .leaf n _ => n
  | .node n _ _ _ _ _ _ => n

/-- Python-level failures of `growCCT`: the three `assert False` statements,
the numpy failures of code paths that crash (see the definitions that raise
them), and exhaustion of the recursion fuel of the embedding. -/
inductive Err where
  | invalidSplitCriterion
  | invalidDirIfEqual
  | invalidMultiTask
  | suggestedSplitEmpty
  | broadcastFail
  | numpyGroupFail
  | fuelOut
deriving DecidableEq, Repr

/-- Environment: the global numpy random state and the library routines that
are not part of the analysed sources.  Every random draw receives the current
value of an explicit counter `t`, which the embedding advances by one per
draw, so a run is a deterministic function of the environment.

* `choiceNR t n k` models `np.random.choice(n, k, replace=False)`;
* `randint t n` models `np.random.randint(n)`;
* `bootIdx t n` models `np.random.randint(n, size=(n,1))` flattened;
* `compAnalysis` is modelled from the spec: `componentAnalysis`
  (`component_analysis.py`, not under `src/`) returns a projection matrix
  (features of `iIn` × directions);
* `twoPoint` is modelled from the spec: `twoPointMaxMarginSplit`
  (`twopoint_max_marginsplit.py`, not under `src/`) returns `none` when no
  valid separating split exists, otherwise a projection column and a
  partition point;
* `rcca` and `fExpand` are modelled from the spec: `regCCA_alt` and the
  random-feature-expansion of the RCCA branch (`ccfUtils.py`, not under
  `src/`);
* `log2Q` models the float `np.log2` used by the `info` criterion. -/
structure Env where
  choiceNR : ℕ → ℕ → ℕ → List ℕ
  randint : ℕ → ℕ → ℕ
  bootIdx : ℕ → ℕ → List ℕ
  compAnalysis : ℕ → Mat → Mat → Mat
  twoPoint : ℕ → Mat → Mat → ℚ → Option (Vec × ℚ)
  rcca : ℕ → Mat → Mat → Mat
  fExpand : ℕ → Vec → Vec
  log2Q : ℚ → ℚ

/-- An environment is well formed when `randint t n` is a valid numpy draw,
i.e. lies below `n` whenever `n > 0` (numpy guarantees this). -/
def EnvOK (env : Env) : Prop := ∀ t n, 0 < n → env.randint t n < n

/-- Update tree struct to make node a leaf (`setupLeaf`). -/
def setupLeaf (y : Mat) : Tree := .leaf y.length (colMeans y)

/-! ## Feature subsampling (`grow_CCT.py` lines 103-135)

The grouping vector `iFeatureNum` is threaded as explicit state `fs`; the
Python code mutates the numpy array in place, which the embedding renders as
returning the updated state (the same state object is then passed on to both
recursive child calls and, at forest level, to subsequently grown trees). -/

/-- Columns whose (non-NaN) group value occurs among the drawn group values:
`iIn = np.any(bInMat, axis=0).nonzero()[0]` for
`bInMat[m][j] = (iFeatureNum[j] == iFeatIn[m])`. -/
def selectedCols (fs : FeatState) (featVals : List ℚ) : List ℕ :=
  (List.range fs.length).filter (fun j =>
    match fs.getD j none with
    | none => false
    | some v => featVals.contains v)

/-- Write `none` (NaN) into `fs` at the positions of `idx` whose companion
variation flag is `false` (`iFeatureNum[iInNew[~bXVaries]] = np.nan`). -/
def nanMask (fs : FeatState) (idx : List ℕ) (bVar : List Bool) : FeatState :=
  (List.range fs.length).map (fun j =>
    if (List.zip idx bVar).any (fun p => p.1 == j && !p.2) then none else fs.getD j none)

/-- Remove from `l` the entries whose position is listed in `pos`
(`np.delete(l, pos)`). -/
def npDelete (l : List ℚ) (pos : List ℕ) : List ℚ :=
  ((List.range l.length).filter (fun i => !pos.contains i)).map (fun i => l.getD i 0)

/-- One pass of the resampling `while` loop of lines 121-135, driven by fuel
(the pool `iCan` strictly shrinks each iteration, so the initial pool size
bounds the number of iterations).  State mirrors the Python locals. -/
def subsampleLoop (env : Env) (x : Mat) (o : Options) :
    ℕ → List ℚ → List ℕ → List ℕ → List ℕ → List Bool → ℕ → FeatState → ℕ →
    List ℕ × FeatState × ℕ
  | 0, _, _, iIn, _, _, _, fs, t => (iIn, fs, t)
  | fuel + 1, iCan, indFeat, iIn, iInNew, bXV, nSel, fs, t =>
    if bXV.all id then (iIn, fs, t)
    else
      -- iFeatureNum[iInNew[~bXVaries]] = nan; bInMat columns knocked out
      let fs2 := nanMask fs iInNew bXV
      -- bRemainsSelected: drawn groups that still own a surviving column
      let iFeatIn := indFeat.map (fun i => iCan.getD i 0)
      let nSel2 := nSel + (iFeatIn.filter (fun v =>
        (List.range fs2.length).any (fun j => fs2.getD j none == some v))).length
      let iCan2 := npDelete iCan indFeat
      let lam : ℤ := min (iCan2.length : ℤ) ((o.lambdaN : ℤ) - (nSel2 : ℤ))
      if lam < 1 then (iIn, fs2, t)
      else
        let indFeat2 := env.choiceNR t iCan2.length lam.toNat
        let iFeatIn2 := indFeat2.map (fun i => iCan2.getD i 0)
        let iInNew2 := selectedCols fs2 iFeatIn2
        let bXV2 := colsVary o.XVariationTol x iInNew2
        let iIn2 := ((iIn ++ maskSel bXV2 iInNew2).insertionSort (· ≤ ·))
        subsampleLoop env x o fuel iCan2 indFeat2 iIn2 iInNew2 bXV2 nSel2 fs2 (t + 1)

/-- Feature subsampling, lines 103-135: draw `lambda` distinct surviving
feature groups, expand to columns, and resample groups whose columns show no
variation, NaN-masking the latter in the grouping state. -/
def subsampleFeatures (env : Env) (x : Mat) (o : Options) (fs : FeatState) (t : ℕ) :
    List ℕ × FeatState × ℕ :=
  let iCan := fastUniqueF fs
  let lam := min iCan.length o.lambdaN
  let indFeat := env.choiceNR t iCan.length lam
  let iFeatIn := indFeat.map (fun i => iCan.getD i 0)
  let iIn := selectedCols fs iFeatIn
  let bXV := colsVary o.XVariationTol x iIn
  if bXV.all id then (iIn, fs, t + 1)
  else
    subsampleLoop env x o (iCan.length + 1) iCan indFeat (maskSel bXV iIn) iIn bXV 0 fs (t + 1)

/-! ## Split search over one projected direction (`grow_CCT.py` lines 212-306) -/

/-- Python index semantics for slice bounds: a negative bound counts from the
end. -/
def pySliceIdx (len : ℕ) (i : ℤ) : ℤ := if i < 0 then i + len else i

/-- Membership of position `j` in the Python slice `start:stop` of a list of
length `len` (step 1, with the usual clamping). -/
def inPySlice (len : ℕ) (start stop : ℤ) (j : ℕ) : Bool :=
  let s := max 0 (pySliceIdx len start)
  let e := min (len : ℤ) (pySliceIdx len stop)
  decide (s ≤ (j : ℤ)) && decide ((j : ℤ) < e)

/-- Maximum of the present values of a list of `Option ℚ`, where `none`
models `-inf`: `none` results when every entry is `-inf`. -/
def optMax (l : List (Option ℚ)) : Option ℚ :=
  l.foldr (fun a b =>
    match a, b with
    | none, b => b
    | some x, none => some x
    | some x, some yv => some (max x yv)) none

/-- The per-class impurity contribution: `gini` uses `-p^2` (the constant 1
cancels in the gain); `info` uses `-p*log2(p)` with the `p = 0` entries set
to `0` (lines 235-243).  Only called for a valid criterion. -/
def impurityTerm (env : Env) (crit : String) (p : ℚ) : ℚ :=
  if crit = "gini" then -(p ^ 2) else if p = 0 then 0 else -(p * env.log2Q p)

/-- Split search along one projected direction (the body of the
`for nVarAtt in range(nProjDirs)` loop, lines 212-306).  Returns the
direction's best gain (`none` models `-inf`) and the drawn split index.
Exactly one `randint` draw is consumed, also on the all-masked fallback.

Failure modelling (each raises in Python on the listed path):
* `broadcastFail`: the `YTrain.shape[1]==1 or bSepPred` regrouping branch
  (lines 224-226, 247-251) stacks `leftCum` along axis 0 and then divides a
  `(2N,K)` array by an `(N,1)` array, a numpy broadcasting error;
* `invalidSplitCriterion`: the `assert False, 'Invalid split criterion!'`
  of line 245;
* `numpyGroupFail`: the grouped multi-task path of lines 253-266 and 283-285
  (taken when `taskWeights` is numeric or the combination mode is `max`)
  builds a ragged index array from `task_ids` and passes an invalid keyword
  to `np.multiply`, both numpy/TypeError failures; consequently the
  `assert False` on an invalid `multiTaskGainCombination` (line 293) is
  unreachable. -/
def dirGains (env : Env) (o : Options) (y : Mat) (u : Vec) :
    Except Err (List (Option ℚ)) :=
  let n := u.length
  let s := sortQ u
  if nCols y == 1 || o.bSepPred then .error .broadcastFail
  else if !(o.splitCriterion == "gini" || o.splitCriterion == "info") then
    .error .invalidSplitCriterion
  else if !(o.taskWeights == none) || o.multiTaskGainCombination == "max" then
    .error .numpyGroupFail
  else
    let v := (argsorted u).map (fun p => y.getD p.2 [])
    let leftCum := cumRows v
    let total := leftCum.getD (n - 1) []
    let term := impurityTerm env o.splitCriterion
    -- metricLeft/metricRight, i.e. the summed impurity of the two children at
    -- each cut (the simple-sum path of lines 255-256); division by the zero
    -- count at the last position lands on masked entries only.
    let metricLeft := fun (i : ℕ) =>
      ((leftCum.getD i []).map (fun c => term (c / ((i : ℚ) + 1)))).sum
    let metricRight := fun (i : ℕ) =>
      ((List.zipWith (· - ·) total (leftCum.getD i [])).map
        (fun c => term (c / ((n : ℚ) - (i : ℚ) - 1)))).sum
    let metricCurrent := metricLeft (n - 1)
    -- gain at each cut; `none` models the `-inf` written over non-unique cut
    -- points (lines 269-270, via the gain formula of lines 274-276) and over
    -- the minPointsLeaf slices (lines 296-298, Python slice semantics).
    .ok ((List.range n).map (fun i =>
      if inPySlice n 0 ((o.minPointsLeaf : ℤ) - 1) i ||
          inPySlice n ((n : ℤ) - 1 - ((o.minPointsLeaf : ℤ) - 1)) (n : ℤ) i then none
      else if decide (i + 1 < n) && decide (o.XVariationTol < s.getD (i + 1) 0 - s.getD i 0) then
        some (metricCurrent -
          (((i : ℚ) + 1) * metricLeft i + ((n : ℚ) - (i : ℚ) - 1) * metricRight i) / (n : ℚ))
      else none))

/-- The cut points whose gain ties the maximum within `10 * eps`
(line 303); entries that hold `-inf` (`none`) never qualify (in numpy,
`|(-inf) - g|` is `inf`, and `|(-inf) - (-inf)|` is NaN). -/
def cutTies (considered : List (Option ℚ)) (g : ℚ) : List ℕ :=
  (List.range considered.length).filter (fun i =>
    match considered.getD i none with
    | some gi => decide (|gi - g| < 10 * machEps)
    | none => false)

/-- Split search along one projected direction (the body of the
`for nVarAtt in range(nProjDirs)` loop, lines 212-306): compute the masked
gains, take the maximum over `metricGain[0:-1]` and draw uniformly among the
tied cut points (lines 300-306; the `dirIfEqual` policy is not consulted
here).  When the maximum is `-inf` the tie list is empty and the fallback
`[1]` is used.  Exactly one `randint` draw is consumed on every path. -/
def dirSplit (env : Env) (t : ℕ) (o : Options) (y : Mat) (u : Vec) :
    Except Err (Option ℚ × ℕ) :=
  match dirGains env o y u with
  | .error e => .error e
  | .ok gains =>
    let considered := gains.take (u.length - 1)
    match optMax considered with
    | none =>
      let ieq2 := [1]
      .ok (none, ieq2.getD (env.randint t ieq2.length) 0)
    | some g =>
      let ieq := cutTies considered g
      let ieq2 := if ieq.isEmpty then [1] else ieq
      .ok (some g, ieq2.getD (env.randint t ieq2.length) 0)

/-- The directions whose best gain ties the overall best within `10 * eps`
(line 315): `-inf` (`none`) entries never qualify. -/
def dirTiesOf (splitGains : List (Option ℚ)) (nd : ℕ) (g : ℚ) : List ℕ :=
  (List.range nd).filter (fun d =>
    match splitGains.getD d none with
    | some gd => decide (|gd - g| < 10 * machEps)
    | none => false)

/-- Direction selection among the tied best directions by the configured
tie-break policy (lines 317-326): uniform random for `rand` (one draw),
first-in-order for `first` (with the explicit empty fallback to 0), and the
`assert False, 'invalid dirIfEqual!'` otherwise.  Returns the chosen
direction and the advanced draw counter. -/
def selectDir (env : Env) (o : Options) (t2 : ℕ) (splitGains : List (Option ℚ))
    (nd : ℕ) (g : ℚ) : Except Err (ℕ × ℕ) :=
  let ieq := dirTiesOf splitGains nd g
  if o.dirIfEqual == "rand" then
    -- `ieq` is provably nonempty whenever this is reached (the maximum is
    -- attained), so numpy's randint(0) failure cannot occur.
    .ok (ieq.getD (env.randint t2 ieq.length) 0, t2 + 1)
  else if o.dirIfEqual == "first" then
    .ok (if ieq.isEmpty then 0 else ieq.headD 0, t2)
  else .error .invalidDirIfEqual

/-- Outcome of the general split-search path (lines 177-345): a leaf because
no projected direction varies (lines 196-198), a leaf because no candidate
split achieves non-negative gain (lines 308-311), or a split. -/
inductive GS where
  | leafNoVar
  | leafNoGain
  | split (projMat : Mat) (iDir : ℕ) (pp : ℚ) (mask : List Bool)
deriving DecidableEq, Repr

/-- An all-ones matrix (`np.ones`), the RCCA fallback projection. -/
def onesMat (r c : ℕ) : Mat :=
  (List.range r).map (fun _ => (List.range c).map (fun _ => (1 : ℚ)))

/-- The projection computation of lines 177-188: in RCCA mode the
(env-modelled) regularized CCA with feature expansion and the all-ones
fallback for an empty projection, otherwise the (env-modelled)
`componentAnalysis` projection; `UTrain` is the projection of the full
sample's selected columns.  One environment call is consumed. -/
def projStage (env : Env) (t : ℕ) (x : Mat) (o : Options) (iIn : List ℕ)
    (xBag yBag : Mat) : Mat × Mat × ℕ :=
  if o.bRCCA then
    let pm0 := env.rcca t xBag yBag
    let pm := if pm0.isEmpty || pm0.all List.isEmpty then onesMat (nCols xBag) 1 else pm0
    (pm, matMul ((subCols x iIn).map (env.fExpand t)) pm, t + 1)
  else
    let pm := env.compAnalysis t xBag yBag
    (pm, matMul (subCols x iIn) pm, t + 1)

/-- Direction choice and partition-point establishment, lines 308-345: stop
with a leaf when no candidate split achieves non-negative gain; otherwise
pick the direction among the within-10*eps ties by the configured policy,
take that direction's drawn cut, place the partition point midway between
the straddling sorted values (via the shift-by-left-value rewriting of
lines 335-340) and derive the left/right assignment; the
`assert False, 'Suggested split with empty!'` of lines 344-345 is modelled
as the error `suggestedSplitEmpty`. -/
def pickAndPartition (env : Env) (o : Options) (uTrain projMat : Mat) (nd : ℕ)
    (rs : List (Option ℚ × ℕ)) (t2 : ℕ) : Except Err (GS × ℕ) :=
  let splitGains := rs.map Prod.fst
  let iSplits := rs.map Prod.snd
  match optMax splitGains with
  | none => .ok (.leafNoGain, t2)
  | some g =>
    if g < 0 then .ok (.leafNoGain, t2)
    else
      match selectDir env o t2 splitGains nd g with
      | .error e => .error e
      | .ok (iDir, t3) =>
        let iSplit := iSplits.getD iDir 0
        let u := colOf uTrain iDir
        let s := sortQ u
        let uLeft := s.getD iSplit 0
        let sSh := s.map (fun z => z - uLeft)
        let pp := sSh.getD iSplit 0 * (1 / 2) + sSh.getD (iSplit + 1) 0 * (1 / 2) + uLeft
        let mask := u.map (fun z => decide (z ≤ pp))
        if !mask.any id || mask.all id then .error .suggestedSplitEmpty
        else .ok (.split projMat iDir pp mask, t3)

/-- Lines 194-306 applied to the computed projection: drop projected
directions without variation (leaf when none survives), then run the
per-direction split search (one draw per surviving direction) and hand the
results to direction choice and partitioning. -/
def searchStage (env : Env) (o : Options) (y : Mat) (projMat0 uTrain0 : Mat)
    (t1 : ℕ) : Except Err (GS × ℕ) :=
  let nd0 := nCols projMat0
  let bUVar := (List.range nd0).map (fun j => colVaries o.XVariationTol (colOf uTrain0 j))
  if !bUVar.any id then .ok (.leafNoVar, t1)
  else
    let keep := maskSel bUVar (List.range nd0)
    let uTrain := subCols uTrain0 keep
    let projMat := subCols projMat0 keep
    let nd := keep.length
    match (List.range nd).mapM (fun d => dirSplit env (t1 + d) o y (colOf uTrain d)) with
    | .error e => .error e
    | .ok rs => pickAndPartition env o uTrain projMat nd rs (t1 + nd)

/-- The general split-search path of `growCCT` (lines 177-345): the
projection stage followed by the split search. -/
def generalSplit (env : Env) (t : ℕ) (x y : Mat) (o : Options) (iIn : List ℕ)
    (xBag yBag : Mat) : Except Err (GS × ℕ) :=
  match projStage env t x o iIn xBag yBag with
  | (projMat0, uTrain0, t1) => searchStage env o y projMat0 uTrain0 t1

/-! ## The tree grower `growCCT` (`grow_CCT.py`) -/

/-- The immediate stop check of lines 78-90 (point-count threshold, numeric
maximum depth, and the depth-490 guard of the `stack` mode). -/
def stopCheck (o : Options) (n depth : ℕ) : Bool :=
  (decide (n < max 2 (max o.minPointsForSplit (2 * o.minPointsLeaf))) ||
    (match o.maxDepthSplit with
     | .num d => decide (depth > d)
     | .stack => false)) ||
  (decide (depth > 490) && (o.maxDepthSplit == .stack))

/-- Class variation check of lines 93-98: some class-count column sums to
neither `0` nor `N`. -/
def yVaries (y : Mat) : Bool :=
  (colSums y).any (fun sm => !(sm == 0) && !(sm == (y.length : ℚ)))

/-- The degenerate-bag check of lines 153-157.  `threeD` records whether the
bag came from the projection-bootstrap branch of line 146: there
`iTrainThis` has shape `(N,1)`, so `YTrainBag = YTrain[iTrainThis, :]` is
three-dimensional of shape `(N,1,K)` (while `XTrainBag =
XTrain[iTrainThis, iIn]` broadcasts to an ordinary `(N,d)` matrix).  With
`YTrainBag.shape[1]` equal to 1, the several-output disjunct of line 156 is
skipped for every `K` and the single-output disjunct of line 157 runs on
the `(1,K)` column sums: its comparison against `np.array([0, N])`
broadcasts to `[sum0 == 0, sum0 == N]` for `K = 1` and to
`[sum0 == 0, sum1 == N]` for `K = 2`, while for `K >= 3` the shapes are
incompatible, which the numpy generation this code base runs on resolves to
the scalar `False` (with a deprecation warning), so the disjunct never
fires.  Without projection bootstrapping the bag is the two-dimensional
full sample and the test reads as intended: for several outputs, fewer than
two column sums exceed `1e-12` in absolute value; for a single output, the
column sum equals 0 or `N`. -/
def degenBag (o : Options) (threeD : Bool) (xBag yBag : Mat) : Bool :=
  let bXBagVaries := (List.range (nCols xBag)).map (fun j =>
    colVaries o.XVariationTol (colOf xBag j))
  let s := colSums yBag
  let n : ℚ := (yBag.length : ℚ)
  (!bXBagVaries.any id) ||
  (if threeD then
    if nCols yBag == 1 then s.getD 0 0 == 0 || s.getD 0 0 == n
    else if nCols yBag == 2 then s.getD 0 0 == 0 || s.getD 1 0 == n
    else false
  else
    (decide (1 < nCols yBag) &&
      decide ((s.filter (fun sm => decide (tol12 < |sm|))).length < 2)) ||
    ((nCols yBag == 1) && (s.getD 0 0 == 0 || s.getD 0 0 == n)))

/-- Modelled from the spec: `queryIfOnlyTwoUniqueRows` (`commonUtils`, not
under `src/`): all rows collapse to exactly two distinct points. -/
def twoUniqueRows (m : Mat) : Bool := m.dedup.length == 2

/-- The projection-bootstrap stage of lines 145-151: under `bProjBoot`, draw
a with-replacement sample of the selected-column submatrix and the outputs
(consuming one draw), otherwise use them directly. -/
def bagStage (env : Env) (x y : Mat) (o : Options) (iIn : List ℕ) (t1 : ℕ) :
    Mat × Mat × ℕ :=
  if o.bProjBoot then
    let draws := env.bootIdx t1 x.length
    (selectRows (subCols x iIn) draws, selectRows y draws, t1 + 1)
  else (subCols x iIn, y, t1)

/-- The degenerate-bag fallback of lines 161-163: when the bag is degenerate
(and growth continues), replace it by the full sample. -/
def bagFallback (x y : Mat) (iIn : List ℕ) (xb0 yb0 : Mat) (deg : Bool) : Mat × Mat :=
  if deg then (subCols x iIn, y) else (xb0, yb0)

/-- The guard of the two-point special case (line 168). -/
def twoPointCond (o : Options) (xBag : Mat) : Bool :=
  o.projectionsNonempty && (decide (xBag.length = 2) || twoUniqueRows xBag)

/-- The recursive CCT grower (`growCCT`, lines 42-375), over explicit fuel
(the Python recursion is bounded only by the data; every theorem below holds
for every fuel value).  The grouping state `fs` models the in-place mutated
`iFeatureNum` array: the updated state is threaded into the left child, then
into the right child, and returned (the Python code passes the identical
array object to both recursive calls).  The `options["mseTotal"]` update of
lines 72-73 is omitted: the field is never read again in this file. -/
def growCCT (env : Env) : ℕ → Mat → Mat → Options → FeatState → ℕ → ℕ →
    Except Err (Tree × FeatState × ℕ)
  | 0, _, _, _, _, _, _ => .error .fuelOut
  | fuel + 1, x, y, o, fs, depth, t =>
    let n := x.length
    if stopCheck o n depth then .ok (setupLeaf y, fs, t)
    else if !yVaries y then .ok (setupLeaf y, fs, t)
    else
      match subsampleFeatures env x o fs t with
      | (iIn, fs1, t1) =>
        if iIn.isEmpty then .ok (setupLeaf y, fs1, t1)
        else
          match bagStage env x y o iIn t1 with
          | (xb0, yb0, t2) =>
            if degenBag o o.bProjBoot xb0 yb0 && !o.bContinueProjBootDegenerate then
              .ok (setupLeaf y, fs1, t2)
            else
              match bagFallback x y iIn xb0 yb0 (degenBag o o.bProjBoot xb0 yb0) with
              | (xBag, yBag) =>
              if twoPointCond o xBag then
                match env.twoPoint t2 xBag yBag o.XVariationTol with
                | none => .ok (setupLeaf y, fs1, t2 + 1)
                | some (w, pp) =>
                  let mask := (subCols x iIn).map (fun r => decide (dotL r w ≤ pp))
                  match growCCT env fuel (maskSel mask x) (maskSel mask y) o fs1 (depth + 1)
                      (t2 + 1) with
                  | .error e => .error e
                  | .ok (lt, fsL, tL) =>
                    match growCCT env fuel (maskSelNot mask x) (maskSelNot mask y) o fsL
                        (depth + 1) tL with
                    | .error e => .error e
                    | .ok (rt, fsR, tR) =>
                      .ok (.node n (colMeans y) iIn w pp lt rt, fsR, tR)
              else
                match generalSplit env t2 x y o iIn xBag yBag with
                | .error e => .error e
                | .ok (.leafNoVar, t3) => .ok (setupLeaf y, fs1, t3)
                | .ok (.leafNoGain, t3) => .ok (setupLeaf y, fs1, t3)
                | .ok (.split pm iDir pp mask, t3) =>
                  match growCCT env fuel (maskSel mask x) (maskSel mask y) o fs1 (depth + 1)
                      t3 with
                  | .error e => .error e
                  | .ok (lt, fsL, tL) =>
                    match growCCT env fuel (maskSelNot mask x) (maskSelNot mask y) o fsL
                        (depth + 1) tL with
                    | .error e => .error e
                    | .ok (rt, fsR, tR) =>
                      .ok (.node n (colMeans y) iIn (pm.map (fun r => r.getD iDir 0)) pp lt rt,
                        fsR, tR)

/-- The complete list of conditions under which `growCCT` produces a leaf,
spelled out as a predicate on the call's inputs via the same stage functions
the grower is built from: the stop check (point-count threshold, numeric
maximum depth, depth-490 `stack` guard); no output variation; no surviving
varying feature; a degenerate projection-bootstrap sample without the
continue flag; the two-point path failing to produce a margin split; and,
on the general path, no varying projected direction or no candidate split of
non-negative gain. -/
def leafDecision (env : Env) (x y : Mat) (o : Options) (fs : FeatState) (depth t : ℕ) :
    Bool :=
  let n := x.length
  stopCheck o n depth || !yVaries y ||
  (match subsampleFeatures env x o fs t with
   | (iIn, _fs1, t1) =>
     iIn.isEmpty ||
     (match bagStage env x y o iIn t1 with
      | (xb0, yb0, t2) =>
        (degenBag o o.bProjBoot xb0 yb0 && !o.bContinueProjBootDegenerate) ||
        (match bagFallback x y iIn xb0 yb0 (degenBag o o.bProjBoot xb0 yb0) with
         | (xBag, yBag) =>
         if twoPointCond o xBag then
           (env.twoPoint t2 xBag yBag o.XVariationTol).isNone
         else
           match generalSplit env t2 x y o iIn xBag yBag with
           | .ok (.leafNoVar, _) => true
           | .ok (.leafNoGain, _) => true
           | _ => false)))

/-- The four leaf conditions exactly as the specification claim states them:
sample count below `max(2, minPointsForSplit, 2*minPointsLeaf)`; depth above
the configured (numeric) maximum depth; no variation in the outputs; and no
candidate split over the surviving projected directions achieving
non-negative gain (evaluated by the same split-search computation the code
runs, at the random-stream position the general path would use).  This
definition follows the claim's words, for comparison with `leafDecision`. -/
def claimedLeafConditions (env : Env) (x y : Mat) (o : Options) (fs : FeatState)
    (depth t : ℕ) : Bool :=
  let n := x.length
  decide (n < max 2 (max o.minPointsForSplit (2 * o.minPointsLeaf))) ||
  (match o.maxDepthSplit with
   | .num d => decide (depth > d)
   | .stack => false) ||
  !yVaries y ||
  (match subsampleFeatures env x o fs t with
   | (iIn, _fs1, t1) =>
     let t2 := if o.bProjBoot then t1 + 1 else t1
     match generalSplit env t2 x y o iIn (subCols x iIn) y with
     | .ok (.leafNoVar, _) => true
     | .ok (.leafNoGain, _) => true
     | _ => false)

/-! ## Concrete fixtures used to evaluate the embedding on small inputs -/

/-- A deterministic environment: ordered subsample draws, `randint` always 0,
bootstrap draws that repeat row 0, identity 1-column projection, no two-point
split. -/
def envPick0 : Env where
  choiceNR := fun _ _ k => List.range k
  randint := fun _ _ => 0
  bootIdx := fun _ n => List.replicate n 0
  compAnalysis := fun _ _ _ => [[1]]
  twoPoint := fun _ _ _ _ => none
  rcca := fun _ _ _ => [[1]]
  fExpand := fun _ v => v
  log2Q := fun _ => 0

/-- As `envPick0` but `randint n` draws `n - 1`, the last admissible value. -/
def envPickLast : Env where
  choiceNR := fun _ _ k => List.range k
  randint := fun _ n => n - 1
  bootIdx := fun _ n => List.replicate n 0
  compAnalysis := fun _ _ _ => [[1]]
  twoPoint := fun _ _ _ _ => none
  rcca := fun _ _ _ => [[1]]
  fExpand := fun _ v => v
  log2Q := fun _ => 0

/-- Baseline options: gini criterion, `first` tie-break, one candidate
feature, `minPointsForSplit = 2`, `minPointsLeaf = 1`, numeric depth 10. -/
def optBase : Options where
  lambdaN := 1
  minPointsForSplit := 2
  minPointsLeaf := 1
  maxDepthSplit := .num 10
  splitCriterion := "gini"
  dirIfEqual := "first"
  multiTaskGainCombination := "mean"
  bSepPred := false
  bProjBoot := false
  bContinueProjBootDegenerate := false
  bRCCA := false
  projectionsNonempty := true
  XVariationTol := 0
  taskWeights := none

/-- Four one-feature training points `0, 1, 2, 3`. -/
def xFour : Mat := [[0], [1], [2], [3]]

/-- One-hot labels A, A, B, B (perfectly separated along the feature). -/
def yAABB : Mat := [[1, 0], [1, 0], [0, 1], [0, 1]]

/-- One-hot labels A, B, A, B (tied best cuts at sorted positions 0 and 2). -/
def yABAB : Mat := [[1, 0], [0, 1], [1, 0], [0, 1]]

/-- Grouping state of a single numeric feature (group id 0). -/
def fsOne : FeatState := [some 0]

/-- Options in which the split criterion, the tie-break policy and the
multi-task combination mode are all invalid. -/
def optInvalid : Options :=
  { optBase with
    splitCriterion := "bogus"
    dirIfEqual := "bogus"
    multiTaskGainCombination := "bogus" }

/-- The cut-point choice among tied candidates that the specification claim
describes: drawn uniformly at random under the `rand` policy and first in
order under any other configured policy.  This definition follows the
claim's words, for comparison with the cut choice the code makes. -/
def claimedCutChoice (env : Env) (o : Options) (t : ℕ) (ties : List ℕ) : ℕ :=
  if o.dirIfEqual == "rand" then ties.getD (env.randint t ties.length) 0
  else ties.headD 0

end CCFS

namespace RegCCF

open CCFS

/-! ## The forest generator of the regression module
(`regCCFS/src/generate_CCF.py`)

The forest generator is embedded parametrically in the type `T` of a grown
tree: the regression tree grower imported by `generate_CCF.py` and the other
helpers that are not part of the analysed sources are supplied through the
environment record `RegEnv` below.  The forest-level control flow of
`generate_CCF.py` itself is translated directly. -/

/-- A three-valued option flag: the string `'default'` before resolution, or
a boolean (`updateForD` resolves `'default'` flags into booleans). -/
inductive TriBool where
  | strDefault
  | b (v : Bool)
deriving DecidableEq, Repr

/-- Python truthiness of a flag as read by `genTree`/`genCCF`: a boolean is
itself; the string `'default'` is nonempty, hence truthy (it is, however,
always resolved by `updateForD` before these reads happen). -/
def TriBool.toB : TriBool → Bool
  | .strDefault => true
  | .b v => v

/-- The `lambda` option before resolution: one of the strings `'sqrt'`,
`'log'`, `'all'`, or a number (`updateForD` lines 26-36; any other
non-numeric value only logs a warning and then crashes on the flag
comparisons, so it is outside the modelled option space). -/
inductive LamSpec where
  | sqrt
  | log
  | all
  | num (n : ℕ)
deriving DecidableEq, Repr

/-- `np.ceil(np.sqrt d)` on a natural number. -/
def ceilSqrt (d : ℕ) : ℕ :=
  if Nat.sqrt d * Nat.sqrt d = d then Nat.sqrt d else Nat.sqrt d + 1

/-- `np.ceil(np.log2 d)` on a natural number `d ≥ 1`. -/
def ceilLog2 (d : ℕ) : ℕ :=
  if 2 ^ Nat.log2 d = d then Nat.log2 d else Nat.log2 d + 1

/-- The pre-rotation kinds of `genTree` lines 78-92 (`'rotationForest'`,
`'random'`, `'pca'`). -/
inductive RotKind where
  | rotForest
  | randomRot
  | pcaRot
deriving DecidableEq, Repr

/-- The forest-level options read by `genCCF`/`genTree`/`updateForD`
(`generate_CCF.py`).  `treeRotation = none` models `treeRotation == None`
(an unrecognised rotation string would leave `R` unbound at line 104 and is
outside the modelled option space). -/
structure RegOptions where
  lambdaSpec : LamSpec
  bProjBoot : TriBool
  bBagTrees : TriBool
  missingValuesMethod : String
  treeRotation : Option RotKind
  propTrain : ℚ
  bSepPred : Bool
deriving DecidableEq, Repr

/-- `updateForD` (lines 21-50): resolve the `lambda` option against the
feature-group count `D` (`sqrt` to the ceiled square root; `log` to
`ceil(log2 D + 1)` with the special case `D = 3` mapped to 2; `all` to `D`),
then resolve each `'default'` flag by the comparison `D <= lambda`:
projection bootstrapping defaults to on unless `D <= lambda`, and bagging
defaults to on exactly when `D <= lambda`. -/
def updateForD (o : RegOptions) (d : ℕ) : RegOptions :=
  let lam : ℕ :=
    match o.lambdaSpec with
    | .sqrt => ceilSqrt d
    | .log => if d = 3 then 2 else ceilLog2 d + 1
    | .all => d
    | .num n => n
  let o1 := { o with lambdaSpec := LamSpec.num lam }
  let o2 := { o1 with bProjBoot :=
    match o1.bProjBoot with
    | .strDefault => .b (!decide (d ≤ lam))
    | v => v }
  { o2 with bBagTrees :=
    match o2.bBagTrees with
    | .strDefault => .b (decide (d ≤ lam))
    | v => v }

/-- Modelled from the spec: the routines `generate_CCF.py` imports from
modules that are not part of the analysed sources, parametrized by the type
`T` of a grown tree.  `processInput` stands for `processInputData` /
`replicateInputProcess` (returning the processed feature matrix and the
`iFeatureNum` grouping vector); `sqrtQ` for the square root inside
`np.std`; `randomMissing` for `random_missing_vals`; `bagChoice` for
`np.random.choice(N, Ntrain, replace)`; `rotProcess` for
`rotationForestDataProcess` / `randomRotation` / `pcaLite` (returning the
rotation matrix, the centring means and the rotated sample); `growTree` for
the regression tree grower `growCCT` of the regression module (at forest
level only its threading of the mutable grouping state matters, returned as
the second component); and `predictCCT` for `predictFromCCT`.  Random draws
take the explicit counter `t`. -/
structure RegEnv (T : Type) where
  processInput : Mat → Mat × FeatState
  sqrtQ : ℚ → ℚ
  randomMissing : ℕ → Mat → Mat
  bagChoice : ℕ → ℕ → ℕ → Bool → List ℕ
  rotProcess : ℕ → RotKind → Mat → Mat → Mat × Vec × Mat
  growTree : ℕ → Mat → Mat → Bool → FeatState → T × FeatState
  predictCCT : T → Mat → Mat

/-- A stored tree of the forest: the grown tree plus the out-of-bag and
rotation fields attached by `genTree` lines 97-104. -/
structure RTree (T : Type) where
  core : T
  iOutOfBag : Option (List ℕ)
  predictsOutOfBag : Option Mat
  rotDetails : Option (Mat × Vec)

/-- `genTree` (lines 54-106): optionally randomise missing values, bag the
sample when bagging is on or `Ntrain` differs from `N` (the out-of-bag rows
are the sorted complement of the drawn multiset, `np.setdiff1d`), optionally
pre-rotate, grow the tree through the environment, and attach the
out-of-bag predictions (on the pre-bag sample's out-of-bag rows) when
bagging is on.  The grouping state `fs` models the `iFeatureNum` array that
Python passes by reference: the state returned by the tree grower is handed
back to the caller. -/
def genTree {T : Type} (env : RegEnv T) (o : RegOptions) (bReg : Bool) (x y : Mat)
    (fs : FeatState) (Ntrain pos t : ℕ) : (ℕ × RTree T) × FeatState × ℕ :=
  let x1 := if o.missingValuesMethod == "random" then env.randomMissing t x else x
  let t1 := if o.missingValuesMethod == "random" then t + 1 else t
  let n := x1.length
  let bag := o.bBagTrees.toB || decide (Ntrain ≠ n)
  let idx := env.bagChoice t1 n Ntrain o.bBagTrees.toB
  let iOob := (List.range n).filter (fun i => decide (i ∉ idx))
  let x2 := if bag then selectRows x1 idx else x1
  let y2 := if bag then selectRows y idx else y
  let t2 := if bag then t1 + 1 else t1
  let rotd : Option (Mat × Vec) :=
    match o.treeRotation with
    | some k => some ((env.rotProcess t2 k x2 y2).1, (env.rotProcess t2 k x2 y2).2.1)
    | none => none
  let x3 :=
    match o.treeRotation with
    | some k => (env.rotProcess t2 k x2 y2).2.2
    | none => x2
  let t3 := match o.treeRotation with | some _ => t2 + 1 | none => t2
  let grown := env.growTree t3 x3 y2 bReg fs
  let tr : RTree T :=
    { core := grown.1
      iOutOfBag := if o.bBagTrees.toB then some iOob else none
      predictsOutOfBag :=
        if o.bBagTrees.toB then some (env.predictCCT grown.1 (selectRows x1 iOob))
        else none
      rotDetails := rotd }
  ((pos, tr), grown.2, t3 + 1)

/-- The sequential tree-building loop of `genCCF` lines 274-279: each
iteration hands the grouping state left by the previous tree to the next
`genTree` call, mirroring the reuse of the single `iFeatureNum` array
across all trees of the forest. -/
def buildTrees {T : Type} (env : RegEnv T) (o : RegOptions) (bReg : Bool) (x y : Mat)
    (Ntrain : ℕ) : ℕ → ℕ → FeatState → ℕ → List (RTree T) × FeatState × ℕ
  | 0, _, fs, t => ([], fs, t)
  | k + 1, pos, fs, t =>
    let one := genTree env o bReg x y fs Ntrain pos t
    let rest := buildTrees env o bReg x y Ntrain k (pos + 1) one.2.1 one.2.2
    (one.1.2 :: rest.1, rest.2.1, rest.2.2)

/-- The grand mean `np.mean(Y)` over all entries of a matrix (line 227). -/
def grandMean (m : Mat) : ℚ := (m.map List.sum).sum / ((m.length * nCols m : ℕ) : ℚ)

/-- The per-column sample variance (`ddof = 1`, line 228); the natural-number
subtraction makes a single row divide by zero, yielding 0 where numpy warns
and produces NaN. -/
def sampleVarCol (m : Mat) (k : ℕ) : ℚ :=
  let c := colOf m k
  let mu := c.sum / (c.length : ℚ)
  (c.map (fun v => (v - mu) ^ 2)).sum / ((c.length - 1 : ℕ) : ℚ)

/-- The per-column output scaling of lines 228-232: the sample standard
deviation with zero entries replaced by 1. -/
def stdYOf {T : Type} (env : RegEnv T) (y : Mat) : Vec :=
  ((List.range (nCols y)).map (fun k => env.sqrtQ (sampleVarCol y k))).map
    (fun s => if s = 0 then 1 else s)

/-- The normalized outputs of line 234: `(Y - mean(Y)) / stdY`. -/
def yNormOf {T : Type} (env : RegEnv T) (y : Mat) : Mat :=
  y.map (fun r => List.zipWith (fun v s => (v - grandMean y) / s) r (stdYOf env y))

/-- One row of the out-of-bag accumulation of lines 299-303: the summed
out-of-bag predictions for sample `i` over the forest, and the number of
trees for which `i` was out of bag. -/
def cumOObRow {T : Type} (trees : List (RTree T)) (predCols i : ℕ) : Vec × ℚ :=
  trees.foldl (fun acc tr =>
    match tr.iOutOfBag, tr.predictsOutOfBag with
    | some iOob, some preds =>
      match iOob.findIdx? (fun k => k == i) with
      | some k =>
        (List.zipWith (· + ·) acc.1 (preds.getD k (List.replicate predCols 0)), acc.2 + 1)
      | none => acc
    | _, _ => acc) (List.replicate predCols 0, 0)

/-- The prediction width used for the accumulator (line 299): the column
count of the first tree's out-of-bag predictions. -/
def predColsOf {T : Type} (trees : List (RTree T)) : ℕ :=
  match trees with
  | [] => 0
  | tr :: _ => nCols (tr.predictsOutOfBag.getD [])

/-- The out-of-bag prediction of sample `i` (line 304): the accumulated
predictions divided by the count, `none` when the sample was never out of
bag (where numpy produces a NaN row from `0 / 0`). -/
def oobPredRow {T : Type} (trees : List (RTree T)) (predCols i : ℕ) : Option Vec :=
  let acc := cumOObRow trees predCols i
  if acc.2 = 0 then none else some (acc.1.map (fun c => c / acc.2))

/-- The regression out-of-bag error of line 306: the per-column `np.nanmean`
of the squared difference between the out-of-bag predictions and the
de-normalized outputs `YTrain * stdY + muY`, i.e. the mean over the samples
that were out of bag at least once (never-out-of-bag rows are NaN rows and
skipped by `np.nanmean`; with no valid row numpy's all-NaN mean is modelled
by the empty mean). -/
def oobErrorVec {T : Type} (trees : List (RTree T)) (yNorm : Mat) (stdY : Vec)
    (muY : ℚ) : Vec :=
  let predCols := predColsOf trees
  let valid := (List.range yNorm.length).filterMap (fun i =>
    (oobPredRow trees predCols i).map (fun p =>
      List.zipWith (fun pv yv => (pv - yv) ^ 2) p
        (List.zipWith (fun yv s => yv * s + muY) (yNorm.getD i []) stdY)))
  colMeans valid

/-- The separated-prediction out-of-bag misclassification rate of line 308:
`1 - mean((oobPreds > 0.5) == YTrain)` per column, where `YTrain` is the
normalized output matrix, `True == y` holds exactly for `y = 1` and
`False == y` exactly for `y = 0`, and a NaN prediction compares as `False`
(`NaN > 0.5` is `False` in numpy), so every row participates.  Dead code in
this module: `bReg` is forced on before it could be reached. -/
def oobSepVec {T : Type} (trees : List (RTree T)) (yNorm : Mat) : Vec :=
  let predCols := predColsOf trees
  let agree := (List.range yNorm.length).map (fun i =>
    let yr := yNorm.getD i []
    match oobPredRow trees predCols i with
    | none => yr.map (fun yv => if yv = 0 then (1 : ℚ) else 0)
    | some p =>
      List.zipWith
        (fun pv yv => if (decide (pv > 1 / 2) : Bool) = decide (yv = 1) then (1 : ℚ) else 0)
        p yr)
  (colMeans agree).map (fun mn => 1 - mn)

/-- Python `NameError` failures of `genCCF`: parallel mode calls the
undefined `gen_tree_parallel` (line 263), and `nTrees = 0` leaves the loop
variable `nT` unbound at the logging statement of line 285. -/
inductive RErr where
  | nameErrorGenTreeParallel
  | nameErrorNT
deriving DecidableEq, Repr

/-- The `outOfBagError` field: a numeric vector, the placeholder string, or
absent (the path of lines 297-308 reached with `bReg` and `bSepPred` both
false leaves the key unset — unreachable here since `bReg` is forced on). -/
inductive OOBVal where
  | num (v : Vec)
  | msg (s : String)
  | unset
deriving DecidableEq, Repr

/-- Whether an out-of-bag field holds a numeric vector. -/
def OOBVal.isNum : OOBVal → Bool
  | .num _ => true
  | _ => false

/-- The placeholder string of lines 310-311 (the backslash line continuation
inside the literal keeps the 32 spaces of the next line's indentation). -/
def oobMsg : String :=
  "OOB error only returned if bagging used and trees kept.                                Please use CCF-Bag instead via options=optionsClassCCF.defaultOptionsCCFBag!"

/-- The returned forest fields relevant to the analysed claims: the trees,
the `bReg` flag and the out-of-bag error (`CCF` dict of lines 290-311; the
options, input-processing details and class names are carried through
unchanged and omitted). -/
structure CCFR (T : Type) where
  trees : List (RTree T)
  bReg : Bool
  outOfBagError : OOBVal

/-- `genCCF` (lines 110-313): force `bReg` on (lines 192-193), process the
input, normalize the outputs, resolve the options against the feature-group
count, force `bKeepTrees` on (lines 248-250), then either crash with a
`NameError` (parallel mode: `gen_tree_parallel` is undefined at line 263;
`nTrees = 0`: the loop variable `nT` is unbound at line 285) or grow the
trees sequentially and attach the out-of-bag error: numeric exactly when
the resolved bagging flag is on (trees are always kept), the placeholder
string otherwise.  `Ntrain = int(N * propTrain)` truncates (`propTrain` is
a proportion in `[0, 1]`). -/
def genCCF {T : Type} (env : RegEnv T) (x y : Mat) (nTrees : ℕ) (bReg : Bool)
    (o : RegOptions) (doParallel bKeepTrees : Bool) (t : ℕ) : Except RErr (CCFR T) :=
  let bReg1 := if !bReg then true else bReg
  let x1 := (env.processInput x).1
  let fs := (env.processInput x).2
  let n := x1.length
  let d := (fastUniqueF fs).length
  let muY := grandMean y
  let stdY := stdYOf env y
  let yN := yNormOf env y
  let o1 := updateForD o d
  let bKeep := if !bKeepTrees then true else bKeepTrees
  let Ntrain := ((n : ℚ) * o1.propTrain).floor.toNat
  if doParallel then .error .nameErrorGenTreeParallel
  else if nTrees = 0 then .error .nameErrorNT
  else
    let forest := (buildTrees env o1 bReg1 x1 yN Ntrain nTrees 0 fs t).1
    .ok
      { trees := forest
        bReg := bReg1
        outOfBagError :=
          if o1.bBagTrees.toB && bKeep then
            if bReg1 then .num (oobErrorVec forest yN stdY muY)
            else if o1.bSepPred then .num (oobSepVec forest yN)
            else .unset
          else .msg oobMsg }

/-- The bagging flag actually in force during a `genCCF` run: the
`bBagTrees` option after `updateForD` resolution against the processed
input's feature-group count. -/
def resolvedBag {T : Type} (env : RegEnv T) (x : Mat) (o : RegOptions) : Bool :=
  (updateForD o (fastUniqueF (env.processInput x).2).length).bBagTrees.toB

/-- Whether an `Except` value is a success. -/
def isOkE {ε α : Type} : Except ε α → Bool
  | .ok _ => true
  | .error _ => false

/-- A concrete environment over `T := ℕ` trees: identity input processing
with a single feature group, unit square roots, full-sample bag draws, and
a state-preserving tree grower. -/
def envReg : RegEnv ℕ where
  processInput := fun x => (x, [some 0])
  sqrtQ := fun _ => 1
  randomMissing := fun _ x => x
  bagChoice := fun _ n _ _ => List.range n
  rotProcess := fun _ _ x _ => (x, [], x)
  growTree := fun _ _ _ _ fs => (0, fs)
  predictCCT := fun _ m => m.map (fun _ => [0])

/-- Baseline regression-forest options: bagging on, no rotation, full
training proportion. -/
def optReg : RegOptions where
  lambdaSpec := .all
  bProjBoot := .b false
  bBagTrees := .b true
  missingValuesMethod := "mean"
  treeRotation := none
  propTrain := 1
  bSepPred := false

/-- Two one-feature training points `0, 1` (also used as outputs). -/
def xyTwo : Mat := [[0], [1]]

end RegCCF

namespace ForestPred

open CCFS

/-! ## Forest-level prediction assembly
(`clfyCCFS/src/prediction_utils/tree_output_forest_pred.py`) -/

/-- The stored class-name encoding of a forest: an integer array, a string
array, a fitted one-hot encoder carrying its integer categories
(`enc.categories_[0]`), or a logical array (line 90). -/
inductive ClassNames where
  | intsCN (l : List ℤ)
  | strsCN (l : List String)
  | oneHotCN (cats : List ℤ)
  | boolsCN (l : List Bool)
deriving DecidableEq, Repr

/-- The `task_ids` option: a plain integer or an index array. -/
inductive TaskIds where
  | int (n : ℕ)
  | arr (l : List ℕ)
deriving DecidableEq, Repr

/-- Failures of the label conversion: the assertion of lines 34/64 (a
`task_ids` integer other than 1), and the crash following the `np.squeeze`
of line 18 — with a single test point (or a single probability column) the
squeezed `forestProbs` is one-dimensional, so the non-`bSepPred` paths
raise (`IndexError` on the two-index slice of lines 45/75, an axis error on
the `axis=1` argmax of lines 32/40/62/70). -/
inductive PErr where
  | taskSizeAssert
  | squeezedProbs
deriving DecidableEq, Repr

/-- Forest-level predicted labels: booleans (separated-prediction
thresholding, or the logical class-name case), integers (integer class
names or decoded one-hot categories), or strings. -/
inductive Labels where
  | bools (m : List (List Bool))
  | ints (m : List (List ℤ))
  | strs (m : List (List String))
deriving DecidableEq, Repr

/-- Accumulator loop of `np.argmax`: the index of the first maximal entry. -/
def argmaxAux : List ℚ → ℕ → ℕ → ℚ → ℕ
  | [], _, best, _ => best
  | z :: zs, idx, best, bv =>
    if bv < z then argmaxAux zs (idx + 1) idx z else argmaxAux zs (idx + 1) best bv

/-- `np.argmax`: the index of the first maximal entry (0 on an empty vector,
where numpy raises instead). -/
def argmaxIdx : Vec → ℕ
  | [] => 0
  | z :: zs => argmaxAux zs 1 0 z

/-- The forest probabilities (line 18): the per-point mean of the per-tree
outputs, `np.mean(treeOutputs, axis=1)`, held row-major here.  The
`np.squeeze` of the same line does not change any value, but it collapses a
singleton dimension to leave a one-dimensional array; that dimensional
collapse, which crashes the non-`bSepPred` label paths, is modelled by the
explicit guard in `treeOutputsToForestPredicts`. -/
def forestProbsOf (treeOutputs : List (List Vec)) : Mat :=
  treeOutputs.map colMeans

/-- Python slice `r[a:b]` of a row (step 1, nonnegative bounds). -/
def sliceCols (r : Vec) (a b : ℕ) : Vec := (r.drop a).take (b - a)

/-- The per-task argmax loop of lines 74-76 (and 44-46): for every task but
the last, the argmax over the columns `task_ids[nO] : task_ids[nO+1] - 1`
(the Python slice excludes its stop bound, so the block's final column is
dropped), and for the last task the argmax over the columns from
`task_ids[-1]` on. -/
def taskArgmaxRow (ids : List ℕ) (r : Vec) : List ℕ :=
  (List.range (ids.length - 1)).map (fun nO =>
    argmaxIdx (sliceCols r (ids.getD nO 0) (ids.getD (nO + 1) 0 - 1))) ++
  [argmaxIdx (r.drop (ids.getD (ids.length - 1) 0))]

/-- `treeOutputsToForestPredicts` (lines 7-94), restricted to the label
conversion (the second returned value is `forestProbsOf`): threshold the
averaged scores at 0.5 in separated-prediction mode (elementwise, so the
squeeze of line 18 only reshapes there; the booleans are recorded row-major
here); otherwise, after the `task_ids` integer assertion of lines 34/64,
fail if the squeeze left `forestProbs` one-dimensional (a single test point
or a single probability column — `IndexError`/axis error at the first
argmax or slice, lines 32-45/62-75), else take the per-task argmax (single
task: the whole row; several tasks: `taskArgmaxRow`, whose non-final blocks
drop their last column) and map the indices through the class-name
encoding — integer or string class names by indexing (lines 78-88), a
one-hot encoder by one-hot re-encoding the first task and decoding through
the stored categories (lines 47-53), logical class names by comparison
with 2 (lines 90-91).  (On an empty test matrix the model reads zero
probability columns and no row, immaterial to the claims.) -/
def treeOutputsToForestPredicts (classNames : ClassNames) (taskIds : TaskIds)
    (bSepPred : Bool) (treeOutputs : List (List Vec)) : Except PErr Labels :=
  let probs := forestProbsOf treeOutputs
  if bSepPred then
    .ok (.bools (probs.map (fun r => r.map (fun z => decide (z > 1 / 2)))))
  else
    let rowIdx : Vec → List ℕ := fun r =>
      match taskIds with
      | .int _ => [argmaxIdx r]
      | .arr ids => if ids.length = 1 then [argmaxIdx r] else taskArgmaxRow ids r
    let badInt : Bool := match taskIds with | .int n => decide (n ≠ 1) | .arr _ => false
    if badInt then .error .taskSizeAssert
    else if probs.length == 1 || nCols probs == 1 then .error .squeezedProbs
    else
      match classNames with
      | .oneHotCN cats =>
        .ok (.ints (probs.map (fun r => [cats.getD ((rowIdx r).getD 0 0) 0])))
      | .intsCN cls =>
        .ok (.ints (probs.map (fun r => (rowIdx r).map (fun k => cls.getD k 0))))
      | .strsCN cls =>
        .ok (.strs (probs.map (fun r => (rowIdx r).map (fun k => cls.getD k ""))))
      | .boolsCN _ =>
        .ok (.bools (probs.map (fun r => (rowIdx r).map (fun k => k == 2))))

/-- The per-task argmax as the specification claim describes it: for each
task, the argmax over that task's full contiguous block of probability
columns (`task_ids[nO]` up to but excluding `task_ids[nO+1]`), the last
block running to the end of the row.  This definition follows the claim's
words, for comparison with `taskArgmaxRow`. -/
def specTaskArgmaxRow (ids : List ℕ) (r : Vec) : List ℕ :=
  (List.range (ids.length - 1)).map (fun nO =>
    argmaxIdx (sliceCols r (ids.getD nO 0) (ids.getD (nO + 1) 0))) ++
  [argmaxIdx (r.drop (ids.getD (ids.length - 1) 0))]

/-- Integer-class-name forest predictions under the specification's
full-block per-task argmax, for comparison with the labels the code
computes. -/
def specForestPredictsInts (cls : List ℤ) (ids : List ℕ) (probs : Mat) :
    List (List ℤ) :=
  probs.map (fun r => (specTaskArgmaxRow ids r).map (fun k => cls.getD k 0))

end ForestPred

namespace CCFS

/-! ## Theorems -/

/-! Helper lemmas about error propagation. -/

theorem mapM_not_err {α β γ : Type} (f : α → Except γ β) (l : List α) (e : γ)
    (hf : ∀ a ∈ l, f a ≠ .error e) : l.mapM f ≠ .error e := by
  induction l with
  | nil =>
    intro h
    rw [List.mapM_nil] at h
    simp [pure, Except.pure] at h
  | cons a as ih =>
    rw [List.mapM_cons]
    cases hfa : f a with
    | error e2 =>
      intro h
      simp only [hfa, bind, Except.bind] at h
      injection h with he
      exact hf a (by simp) (by rw [hfa, he])
    | ok b =>
      cases has : as.mapM f with
      | error e2 =>
        intro h
        simp only [hfa, has, bind, Except.bind] at h
        injection h with he
        exact ih (fun a2 ha2 => hf a2 (by simp [ha2])) (by rw [has, he])
      | ok bs =>
        intro h
        simp only [hfa, has, bind, Except.bind, pure, Except.pure] at h
        exact Except.noConfusion h

theorem dirGains_err_cases (env : Env) (o : Options) (y : Mat) (u : Vec) (e : Err)
    (h : dirGains env o y u = .error e) :
    e = .broadcastFail ∨ e = .invalidSplitCriterion ∨ e = .numpyGroupFail := by
  unfold dirGains at h
  split at h
  · simp_all
  · split at h
    · simp_all
    · split at h
      · simp_all
      · simp at h

theorem dirSplit_not_multiTask (env : Env) (t : ℕ) (o : Options) (y : Mat) (u : Vec) :
    dirSplit env t o y u ≠ .error .invalidMultiTask := by
  unfold dirSplit
  cases h : dirGains env o y u with
  | error e =>
    dsimp only
    intro hcon
    injection hcon with he
    rcases dirGains_err_cases env o y u e h with h2 | h2 | h2 <;> simp [h2] at he
  | ok gains =>
    dsimp only
    split <;> intro hcon <;> simp at hcon

theorem selectDir_err_cases (env : Env) (o : Options) (t2 : ℕ)
    (gains : List (Option ℚ)) (nd : ℕ) (g : ℚ) (e : Err)
    (h : selectDir env o t2 gains nd g = .error e) : e = .invalidDirIfEqual := by
  unfold selectDir at h
  split at h
  · simp at h
  · split at h
    · simp at h
    · simp_all

theorem pickAndPartition_not_multiTask (env : Env) (o : Options) (uTrain projMat : Mat)
    (nd : ℕ) (rs : List (Option ℚ × ℕ)) (t2 : ℕ) :
    pickAndPartition env o uTrain projMat nd rs t2 ≠ .error .invalidMultiTask := by
  unfold pickAndPartition
  dsimp only
  split
  · simp
  · split
    · simp
    · cases hsel : selectDir env o t2 (rs.map Prod.fst) nd _ with
      | error e =>
        dsimp only
        intro hcon
        injection hcon with he
        rw [selectDir_err_cases _ _ _ _ _ _ _ hsel] at he
        simp at he
      | ok p =>
        rcases p with ⟨iDir, t3⟩
        dsimp only
        split <;> intro hcon <;> simp at hcon

theorem searchStage_not_multiTask (env : Env) (o : Options) (y : Mat)
    (projMat0 uTrain0 : Mat) (t1 : ℕ) :
    searchStage env o y projMat0 uTrain0 t1 ≠ .error .invalidMultiTask := by
  unfold searchStage
  dsimp only
  split
  · simp
  · cases hmap : (List.range _).mapM
        (fun d => dirSplit env (t1 + d) o y (colOf (subCols uTrain0 _) d)) with
    | error e =>
      intro hcon
      injection hcon with he
      subst he
      exact mapM_not_err _ _ _ (fun a _ => dirSplit_not_multiTask env (t1 + a) o y _) hmap
    | ok rs =>
      dsimp only
      exact pickAndPartition_not_multiTask env o _ _ _ rs _

theorem generalSplit_not_multiTask (env : Env) (t : ℕ) (x y : Mat) (o : Options)
    (iIn : List ℕ) (xBag yBag : Mat) :
    generalSplit env t x y o iIn xBag yBag ≠ .error .invalidMultiTask := by
  unfold generalSplit
  rcases hp : projStage env t x o iIn xBag yBag with ⟨pm0, u0, t1⟩
  exact searchStage_not_multiTask env o y pm0 u0 t1

theorem growCCT_not_multiTask (env : Env) (fuel : ℕ) (x y : Mat) (o : Options)
    (fs : FeatState) (depth t : ℕ) :
    growCCT env fuel x y o fs depth t ≠ .error .invalidMultiTask := by
  induction fuel generalizing x y fs depth t with
  | zero => simp [growCCT]
  | succ n ih =>
    rcases hsub : subsampleFeatures env x o fs t with ⟨iIn, fs1, t1⟩
    simp only [growCCT, hsub]
    split
    · simp
    · split
      · simp
      · split
        · simp
        · rcases hbag : bagStage env x y o iIn t1 with ⟨xb0, yb0, tb⟩
          dsimp only
          split
          · simp
          · rcases hfb : bagFallback x y iIn xb0 yb0 (degenBag o o.bProjBoot xb0 yb0) with ⟨xBag, yBag⟩
            dsimp only
            split
            · split
              · simp
              · split
                · rename_i e hrec
                  intro hcon
                  injection hcon with he
                  subst he
                  exact ih _ _ _ _ _ hrec
                · split
                  · rename_i e hrec
                    intro hcon
                    injection hcon with he
                    subst he
                    exact ih _ _ _ _ _ hrec
                  · simp
            · split
              · rename_i e hgs
                intro hcon
                injection hcon with he
                subst he
                exact generalSplit_not_multiTask env tb x y o iIn xBag yBag hgs
              · simp
              · simp
              · split
                · rename_i e hrec
                  intro hcon
                  injection hcon with he
                  subst he
                  exact ih _ _ _ _ _ hrec
                · split
                  · rename_i e hrec
                    intro hcon
                    injection hcon with he
                    subst he
                    exact ih _ _ _ _ _ hrec
                  · simp

theorem dirGains_invalid_criterion (env : Env) (o : Options) (y : Mat) (u : Vec)
    (hy : (nCols y == 1 || o.bSepPred) = false)
    (hc : (o.splitCriterion == "gini" || o.splitCriterion == "info") = false) :
    dirGains env o y u = .error .invalidSplitCriterion := by
  unfold dirGains
  simp [hy, hc]

theorem getD_take_map_range {α : Type} (f : ℕ → α) (n k i : ℕ) (d : α) :
    ((((List.range n).map f)).take k).getD i d = if i < min k n then f i else d := by
  rw [List.getD_eq_getElem?_getD, List.getElem?_take]
  by_cases h : i < k
  · rw [if_pos h, List.getElem?_map]
    by_cases h2 : i < n
    · rw [List.getElem?_range h2]
      simp [h, h2]
    · rw [List.getElem?_eq_none (by simpa using h2)]
      simp [h, h2]
  · rw [if_neg h]
    simp [Nat.lt_min, h]

theorem optMax_attained (l : List (Option ℚ)) (g : ℚ) (h : optMax l = some g) :
    ∃ i < l.length, l.getD i none = some g := by
  induction l with
  | nil => simp [optMax] at h
  | cons a as ih =>
    rw [optMax] at h
    cases a with
    | none =>
      simp only [List.foldr_cons] at h
      obtain ⟨i, hi, hg⟩ := ih (by rw [optMax]; exact h)
      exact ⟨i + 1, by simpa using hi, by simpa using hg⟩
    | some x =>
      simp only [List.foldr_cons] at h
      cases hm : optMax as with
      | none =>
        rw [optMax] at hm
        rw [hm] at h
        injection h with he
        exact ⟨0, by simp, by simp [he]⟩
      | some yv =>
        rw [optMax] at hm
        rw [hm] at h
        injection h with he
        rcases max_cases x yv with ⟨h1, -⟩ | ⟨h1, -⟩
        · exact ⟨0, by simp, by simp [← he, h1]⟩
        · obtain ⟨i, hi, hg⟩ := ih (by rw [optMax, hm, ← h1, he])
          exact ⟨i + 1, by simpa using hi, by simpa using hg⟩

theorem tenEps_pos : (0 : ℚ) < 10 * machEps := by
  unfold machEps
  norm_num

theorem cutTies_mem_gain (l : List (Option ℚ)) (g : ℚ) (i : ℕ) (h : i ∈ cutTies l g) :
    i < l.length ∧ ∃ gi, l.getD i none = some gi ∧ |gi - g| < 10 * machEps := by
  unfold cutTies at h
  rw [List.mem_filter] at h
  obtain ⟨hr, hp⟩ := h
  refine ⟨List.mem_range.mp hr, ?_⟩
  cases hg : l.getD i none with
  | none => rw [hg] at hp; simp at hp
  | some gi =>
    rw [hg] at hp
    simp only [decide_eq_true_eq] at hp
    exact ⟨gi, rfl, hp⟩

theorem cutTies_nonempty (l : List (Option ℚ)) (g : ℚ) (h : optMax l = some g) :
    cutTies l g ≠ [] := by
  obtain ⟨i, hi, hg⟩ := optMax_attained l g h
  have hmem : i ∈ cutTies l g := by
    unfold cutTies
    rw [List.mem_filter]
    refine ⟨List.mem_range.mpr hi, ?_⟩
    rw [hg]
    simp only [decide_eq_true_eq]
    rw [sub_self, abs_zero]
    exact tenEps_pos
  intro hc
  rw [hc] at hmem
  exact List.not_mem_nil i hmem

theorem dirTiesOf_mem_gain (l : List (Option ℚ)) (nd : ℕ) (g : ℚ) (d : ℕ)
    (h : d ∈ dirTiesOf l nd g) :
    d < nd ∧ ∃ gd, l.getD d none = some gd ∧ |gd - g| < 10 * machEps := by
  unfold dirTiesOf at h
  rw [List.mem_filter] at h
  obtain ⟨hr, hp⟩ := h
  refine ⟨List.mem_range.mp hr, ?_⟩
  cases hg : l.getD d none with
  | none => rw [hg] at hp; simp at hp
  | some gd =>
    rw [hg] at hp
    simp only [decide_eq_true_eq] at hp
    exact ⟨gd, rfl, hp⟩

theorem dirTiesOf_nonempty (l : List (Option ℚ)) (nd : ℕ) (g : ℚ)
    (h : optMax l = some g) (hlen : l.length = nd) : dirTiesOf l nd g ≠ [] := by
  obtain ⟨i, hi, hg⟩ := optMax_attained l g h
  have hmem : i ∈ dirTiesOf l nd g := by
    unfold dirTiesOf
    rw [List.mem_filter]
    refine ⟨List.mem_range.mpr (hlen ▸ hi), ?_⟩
    rw [hg]
    simp only [decide_eq_true_eq]
    rw [sub_self, abs_zero]
    exact tenEps_pos
  intro hc
  rw [hc] at hmem
  exact List.not_mem_nil i hmem

theorem getD_map_range {α : Type} (f : ℕ → α) (n i : ℕ) (d : α) :
    (((List.range n).map f)).getD i d = if i < n then f i else d := by
  rw [List.getD_eq_getElem?_getD, List.getElem?_map]
  by_cases h2 : i < n
  · rw [List.getElem?_range h2]; simp [h2]
  · rw [List.getElem?_eq_none (by simpa using h2)]; simp [h2]

theorem getD_take {α : Type} (l : List α) (k i : ℕ) (d : α) :
    (l.take k).getD i d = if i < k then l.getD i d else d := by
  rw [List.getD_eq_getElem?_getD, List.getElem?_take]
  by_cases h : i < k
  · simp [h, List.getD_eq_getElem?_getD]
  · simp [h]

theorem getD_map_of_lt {α β : Type} (f : α → β) (l : List α) (i : ℕ) (d : β) (d0 : α)
    (h : i < l.length) : (l.map f).getD i d = f (l.getD i d0) := by
  rw [List.getD_eq_getElem?_getD, List.getElem?_map, List.getElem?_eq_getElem h]
  simp [List.getD_eq_getElem?_getD, List.getElem?_eq_getElem h]

theorem getD_mem_of_lt {α : Type} (l : List α) (n : ℕ) (d : α) (h : n < l.length) :
    l.getD n d ∈ l := by
  rw [List.getD_eq_getElem?_getD, List.getElem?_eq_getElem h]
  exact List.getElem_mem h

theorem getD_range_of_lt (n i : ℕ) (d : ℕ) (h : i < n) : (List.range n).getD i d = i := by
  rw [List.getD_eq_getElem?_getD, List.getElem?_range h]
  rfl

theorem headD_mem {α : Type} (l : List α) (d : α) (h : l ≠ []) : l.headD d ∈ l := by
  cases l with
  | nil => exact absurd rfl h
  | cons a as => simp

theorem sortQ_length (u : Vec) : (sortQ u).length = u.length := by
  unfold sortQ argsorted pairsOf
  rw [List.length_map, List.length_insertionSort, List.length_map, List.enum_length]

theorem sortQ_perm (u : Vec) : List.Perm (sortQ u) u := by
  unfold sortQ argsorted pairsOf
  have h1 := (List.perm_insertionSort keyLe (u.enum.map (fun p => (p.2, p.1)))).map Prod.fst
  rw [List.map_map] at h1
  have h2 : (u.enum.map (Prod.fst ∘ fun p => (p.2, p.1))) = u := by
    have : (Prod.fst ∘ fun p : ℕ × ℚ => (p.2, p.1)) = Prod.snd := rfl
    rw [this, List.enum_map_snd]
  rw [h2] at h1
  exact h1

theorem dirGains_gap (env : Env) (o : Options) (y : Mat) (u : Vec)
    (gains : List (Option ℚ)) (hok : dirGains env o y u = .ok gains) (i : ℕ) (gi : ℚ)
    (hg : gains.getD i none = some gi) :
    i + 1 < u.length ∧
      o.XVariationTol < (sortQ u).getD (i + 1) 0 - (sortQ u).getD i 0 := by
  unfold dirGains at hok
  split at hok
  · simp at hok
  · split at hok
    · simp at hok
    · split at hok
      · simp at hok
      · injection hok with he
        rw [← he] at hg
        rw [getD_map_range] at hg
        split at hg
        · split at hg
          · simp at hg
          · split at hg
            · rename_i hB
              simp only [Bool.and_eq_true, decide_eq_true_eq] at hB
              exact hB
            · simp at hg
        · simp at hg

theorem dirSplit_err_cases (env : Env) (t : ℕ) (o : Options) (y : Mat) (u : Vec) (e : Err)
    (h : dirSplit env t o y u = .error e) :
    e = .broadcastFail ∨ e = .invalidSplitCriterion ∨ e = .numpyGroupFail := by
  unfold dirSplit at h
  cases hdg : dirGains env o y u with
  | error e2 =>
    rw [hdg] at h
    dsimp only at h
    injection h with he
    rw [← he]
    exact dirGains_err_cases env o y u e2 hdg
  | ok gains =>
    rw [hdg] at h
    dsimp only at h
    split at h <;> simp at h

theorem dirSplit_ok_some (env : Env) (t : ℕ) (o : Options) (y : Mat) (u : Vec)
    (g : ℚ) (isp : ℕ) (hEnv : EnvOK env)
    (hok : dirSplit env t o y u = .ok (some g, isp)) :
    ∃ gains, dirGains env o y u = .ok gains ∧
      ∃ gi, (gains.take (u.length - 1)).getD isp none = some gi ∧
        |gi - g| < 10 * machEps := by
  unfold dirSplit at hok
  cases hdg : dirGains env o y u with
  | error e => rw [hdg] at hok; simp at hok
  | ok gains =>
    rw [hdg] at hok
    dsimp only at hok
    refine ⟨gains, rfl, ?_⟩
    cases hm : optMax (gains.take (u.length - 1)) with
    | none => rw [hm] at hok; simp at hok
    | some g2 =>
      rw [hm] at hok
      dsimp only at hok
      have hne := cutTies_nonempty _ _ hm
      have hie : (cutTies (gains.take (u.length - 1)) g2).isEmpty = false := by
        cases hcc : cutTies (gains.take (u.length - 1)) g2 with
        | nil => exact absurd hcc hne
        | cons a as => rfl
      rw [hie] at hok
      simp only [Bool.false_eq_true, if_false, Except.ok.injEq, Prod.mk.injEq] at hok
      obtain ⟨hg2, hisp⟩ := hok
      have hg2e : g2 = g := Option.some.inj hg2
      rw [← hg2e]
      have hpos : 0 < (cutTies (gains.take (u.length - 1)) g2).length := by
        cases hcc : cutTies (gains.take (u.length - 1)) g2 with
        | nil => exact absurd hcc hne
        | cons a as => simp
      have hmem : isp ∈ cutTies (gains.take (u.length - 1)) g2 := by
        rw [← hisp]
        exact getD_mem_of_lt _ _ _ (hEnv t _ hpos)
      obtain ⟨-, gi, hgi, hclose⟩ := cutTies_mem_gain _ _ _ hmem
      exact ⟨gi, hgi, hclose⟩

theorem mapM_ok_getD {α β γ : Type} (f : α → Except γ β) (l : List α) (rs : List β)
    (h : l.mapM f = .ok rs) (dα : α) (dβ : β) :
    rs.length = l.length ∧ ∀ i < l.length, f (l.getD i dα) = .ok (rs.getD i dβ) := by
  induction l generalizing rs with
  | nil =>
    rw [List.mapM_nil] at h
    simp only [pure, Except.pure, Except.ok.injEq] at h
    subst h
    exact ⟨rfl, by intro i hi; simp at hi⟩
  | cons a as ih =>
    rw [List.mapM_cons] at h
    cases hfa : f a with
    | error e =>
      simp only [hfa, bind, Except.bind] at h
      exact Except.noConfusion h
    | ok b =>
      cases has : as.mapM f with
      | error e =>
        simp only [hfa, has, bind, Except.bind] at h
        exact Except.noConfusion h
      | ok bs =>
        simp only [hfa, has, bind, Except.bind, pure, Except.pure, Except.ok.injEq] at h
        subst h
        obtain ⟨hlen, hall⟩ := ih bs has
        refine ⟨by simp [hlen], ?_⟩
        intro i hi
        cases i with
        | zero => simpa using hfa
        | succ j =>
          simp only [List.getD_cons_succ]
          exact hall j (by simpa using hi)

theorem selectDir_ok_mem (env : Env) (o : Options) (t2 : ℕ) (gains : List (Option ℚ))
    (nd : ℕ) (g : ℚ) (iDir t3 : ℕ) (hEnv : EnvOK env)
    (hne : dirTiesOf gains nd g ≠ [])
    (h : selectDir env o t2 gains nd g = .ok (iDir, t3)) :
    iDir ∈ dirTiesOf gains nd g := by
  unfold selectDir at h
  split at h
  · simp only [Except.ok.injEq, Prod.mk.injEq] at h
    obtain ⟨h1, -⟩ := h
    have hpos : 0 < (dirTiesOf gains nd g).length := by
      cases hc : dirTiesOf gains nd g with
      | nil => exact absurd hc hne
      | cons a as => simp
    rw [← h1]
    exact getD_mem_of_lt _ _ _ (hEnv t2 _ hpos)
  · split at h
    · simp only [Except.ok.injEq, Prod.mk.injEq] at h
      obtain ⟨h1, -⟩ := h
      have hie : (dirTiesOf gains nd g).isEmpty = false := by
        cases hc : dirTiesOf gains nd g with
        | nil => exact absurd hc hne
        | cons a as => rfl
      rw [hie] at h1
      simp only [Bool.false_eq_true, if_false] at h1
      rw [← h1]
      exact headD_mem _ _ hne
    · simp at h

theorem pickAndPartition_not_empty (env : Env) (o : Options) (y : Mat)
    (uTrain projMat : Mat) (nd : ℕ) (rs : List (Option ℚ × ℕ)) (t1 t2 : ℕ)
    (hEnv : EnvOK env) (htol : 0 ≤ o.XVariationTol)
    (hlen : rs.length = nd)
    (hcorr : ∀ d < nd,
      dirSplit env (t1 + d) o y (colOf uTrain d) = .ok (rs.getD d (none, 1))) :
    pickAndPartition env o uTrain projMat nd rs t2 ≠ .error .suggestedSplitEmpty := by
  unfold pickAndPartition
  dsimp only
  cases hm : optMax (rs.map Prod.fst) with
  | none => simp
  | some g =>
    dsimp only
    split
    · simp
    · cases hsel : selectDir env o t2 (rs.map Prod.fst) nd g with
      | error e =>
        dsimp only
        intro hcon
        injection hcon with he
        rw [selectDir_err_cases _ _ _ _ _ _ _ hsel] at he
        exact Err.noConfusion he
      | ok p =>
        rcases p with ⟨iDir, t3⟩
        dsimp only
        have hmlen : (rs.map Prod.fst).length = nd := by rw [List.length_map, hlen]
        have hne := dirTiesOf_nonempty _ nd g hm hmlen
        have hiDir : iDir ∈ dirTiesOf (rs.map Prod.fst) nd g :=
          selectDir_ok_mem env o t2 _ nd g iDir t3 hEnv hne hsel
        obtain ⟨hdlt, gd, hgd, -⟩ := dirTiesOf_mem_gain _ _ _ _ hiDir
        have hdlt2 : iDir < rs.length := by rw [hlen]; exact hdlt
        have hfst : (rs.map Prod.fst).getD iDir none = (rs.getD iDir (none, 1)).1 :=
          getD_map_of_lt Prod.fst rs iDir none (none, 1) hdlt2
        have hsnd : (rs.map Prod.snd).getD iDir 0 = (rs.getD iDir (none, 1)).2 :=
          getD_map_of_lt Prod.snd rs iDir 0 (none, 1) hdlt2
        have hds := hcorr iDir hdlt
        rcases hrd : rs.getD iDir (none, 1) with ⟨gOpt, isp⟩
        rw [hrd] at hds hfst hsnd
        dsimp only at hfst hsnd
        rw [hfst] at hgd
        subst hgd
        obtain ⟨gains, hdg, gi, hgi, -⟩ :=
          dirSplit_ok_some env (t1 + iDir) o y (colOf uTrain iDir) gd isp hEnv hds
        rw [getD_take] at hgi
        by_cases hlt : isp < (colOf uTrain iDir).length - 1
        · rw [if_pos hlt] at hgi
          obtain ⟨hbound, hgap⟩ :=
            dirGains_gap env o y (colOf uTrain iDir) gains hdg isp gi hgi
          rw [hsnd]
          have hslen : (sortQ (colOf uTrain iDir)).length = (colOf uTrain iDir).length :=
            sortQ_length _
          have hisp1 : isp + 1 < (sortQ (colOf uTrain iDir)).length := by
            rw [hslen]; exact hbound
          have hisp0 : isp < (sortQ (colOf uTrain iDir)).length := by omega
          rw [getD_map_of_lt
                (fun z => z - (sortQ (colOf uTrain iDir)).getD isp 0) _ isp 0 0 hisp0,
              getD_map_of_lt
                (fun z => z - (sortQ (colOf uTrain iDir)).getD isp 0) _ (isp + 1) 0 0 hisp1]
          have hamem : (sortQ (colOf uTrain iDir)).getD isp 0 ∈ colOf uTrain iDir :=
            ((sortQ_perm _).mem_iff).mp (getD_mem_of_lt _ _ _ hisp0)
          have hbmem : (sortQ (colOf uTrain iDir)).getD (isp + 1) 0 ∈ colOf uTrain iDir :=
            ((sortQ_perm _).mem_iff).mp (getD_mem_of_lt _ _ _ hisp1)
          set a := (sortQ (colOf uTrain iDir)).getD isp 0 with ha
          set b := (sortQ (colOf uTrain iDir)).getD (isp + 1) 0 with hb
          have hppa : a ≤ (a - a) * (1 / 2) + (b - a) * (1 / 2) + a := by
            have h0 : (0 : ℚ) < b - a := lt_of_le_of_lt htol hgap
            linarith
          have hppb : ¬ (b ≤ (a - a) * (1 / 2) + (b - a) * (1 / 2) + a) := by
            have h0 : (0 : ℚ) < b - a := lt_of_le_of_lt htol hgap
            intro hcon
            linarith
          have hany : ((colOf uTrain iDir).map
              (fun z => decide (z ≤ (a - a) * (1 / 2) + (b - a) * (1 / 2) + a))).any id
              = true := by
            rw [List.any_eq_true]
            refine ⟨decide (a ≤ (a - a) * (1 / 2) + (b - a) * (1 / 2) + a),
              List.mem_map.mpr ⟨a, hamem, rfl⟩, ?_⟩
            simpa using hppa
          have hall : ((colOf uTrain iDir).map
              (fun z => decide (z ≤ (a - a) * (1 / 2) + (b - a) * (1 / 2) + a))).all id
              = false := by
            rw [Bool.eq_false_iff]
            intro hcon
            rw [List.all_eq_true] at hcon
            have hc2 := hcon _ (List.mem_map.mpr ⟨b, hbmem, rfl⟩)
            simp only [id, decide_eq_true_eq] at hc2
            exact hppb hc2
          simp only [hany, hall, Bool.not_true, Bool.false_or, Bool.false_eq_true, if_false]
          simp
        · rw [if_neg hlt] at hgi
          exact absurd hgi (by simp)

theorem searchStage_not_empty (env : Env) (o : Options) (y : Mat)
    (projMat0 uTrain0 : Mat) (t1 : ℕ) (hEnv : EnvOK env)
    (htol : 0 ≤ o.XVariationTol) :
    searchStage env o y projMat0 uTrain0 t1 ≠ .error .suggestedSplitEmpty := by
  unfold searchStage
  dsimp only
  split
  · simp
  · cases hmap : (List.range _).mapM
        (fun d => dirSplit env (t1 + d) o y (colOf (subCols uTrain0 _) d)) with
    | error e =>
      intro hcon
      injection hcon with he
      subst he
      exact mapM_not_err _ _ _ (fun a _ hc => by
        rcases dirSplit_err_cases _ _ _ _ _ _ hc with h | h | h <;> exact Err.noConfusion h)
        hmap
    | ok rs =>
      dsimp only
      obtain ⟨hlen, hall⟩ := mapM_ok_getD _ _ _ hmap 0 (none, 1)
      rw [List.length_range] at hlen
      refine pickAndPartition_not_empty env o y _ _ _ rs t1 _ hEnv htol hlen ?_
      intro d hd
      have := hall d (by rw [List.length_range]; exact hd)
      rw [getD_range_of_lt _ _ _ hd] at this
      exact this

theorem generalSplit_not_empty (env : Env) (t : ℕ) (x y : Mat) (o : Options)
    (iIn : List ℕ) (xBag yBag : Mat) (hEnv : EnvOK env)
    (htol : 0 ≤ o.XVariationTol) :
    generalSplit env t x y o iIn xBag yBag ≠ .error .suggestedSplitEmpty := by
  unfold generalSplit
  rcases hp : projStage env t x o iIn xBag yBag with ⟨pm0, u0, t1⟩
  exact searchStage_not_empty env o y pm0 u0 t1 hEnv htol

/-- C4: under a nonnegative variation tolerance (and numpy's guarantee that
`randint n < n`), `growCCT` never reaches the
`assert False, 'Suggested split with empty!'` of the general split-search
path: whenever that path builds an internal node, at least one training row
projects at or below the partition point and at least one projects above
it. -/
theorem growCCT_never_emptySplit (env : Env) (fuel : ℕ) (x y : Mat) (o : Options)
    (fs : FeatState) (depth t : ℕ) (hEnv : EnvOK env) (htol : 0 ≤ o.XVariationTol) :
    growCCT env fuel x y o fs depth t ≠ .error .suggestedSplitEmpty := by
  induction fuel generalizing x y fs depth t with
  | zero => simp [growCCT]
  | succ n ih =>
    rcases hsub : subsampleFeatures env x o fs t with ⟨iIn, fs1, t1⟩
    simp only [growCCT, hsub]
    split
    · simp
    · split
      · simp
      · split
        · simp
        · rcases hbag : bagStage env x y o iIn t1 with ⟨xb0, yb0, tb⟩
          dsimp only
          split
          · simp
          · rcases hfb : bagFallback x y iIn xb0 yb0 (degenBag o o.bProjBoot xb0 yb0) with ⟨xBag, yBag⟩
            dsimp only
            split
            · split
              · simp
              · split
                · rename_i e hrec
                  intro hcon
                  injection hcon with he
                  subst he
                  exact ih _ _ _ _ _ hrec
                · split
                  · rename_i e hrec
                    intro hcon
                    injection hcon with he
                    subst he
                    exact ih _ _ _ _ _ hrec
                  · simp
            · split
              · rename_i e hgs
                intro hcon
                injection hcon with he
                subst he
                exact generalSplit_not_empty env tb x y o iIn xBag yBag hEnv htol hgs
              · simp
              · simp
              · split
                · rename_i e hrec
                  intro hcon
                  injection hcon with he
                  subst he
                  exact ih _ _ _ _ _ hrec
                · split
                  · rename_i e hrec
                    intro hcon
                    injection hcon with he
                    subst he
                    exact ih _ _ _ _ _ hrec
                  · simp

/-- C4 (witness): the theorem applied to a concrete growth run. -/
theorem growCCT_never_emptySplit_witness :
    growCCT envPick0 5 xFour yAABB optBase fsOne 0 0 ≠ .error .suggestedSplitEmpty :=
  growCCT_never_emptySplit envPick0 5 xFour yAABB optBase fsOne 0 0
    (fun _ _ h => h) (le_refl 0)

theorem countP_split {α : Type} (pred : α → Bool) (d : α) :
    ∀ (s : List α) (m : ℕ), m ≤ s.length →
      (∀ j, j < m → pred (s.getD j d) = true) →
      (∀ j, m ≤ j → j < s.length → pred (s.getD j d) = false) →
      s.countP pred = m
  | [], 0, _, _, _ => rfl
  | [], m + 1, h, _, _ => absurd h (by simp)
  | a :: as, 0, _, _, h2 => by
    rw [List.countP_cons]
    have ha := h2 0 (Nat.zero_le 0) (by simp)
    simp only [List.getD_cons_zero] at ha
    rw [ha]
    simp only [Bool.false_eq_true, if_false, Nat.add_zero]
    exact countP_split pred d as 0 (Nat.zero_le _) (by simp) (fun j _ hj => by
      have := h2 (j + 1) (by omega) (by simpa using Nat.succ_lt_succ hj)
      simpa using this)
  | a :: as, m + 1, h, h1, h2 => by
    rw [List.countP_cons]
    have ha := h1 0 (Nat.succ_pos m)
    simp only [List.getD_cons_zero] at ha
    rw [ha]
    have hrec := countP_split pred d as m (by simpa using h)
      (fun j hj => by simpa using h1 (j + 1) (by omega))
      (fun j hjm hj => by
        have := h2 (j + 1) (by omega) (by simpa using Nat.succ_lt_succ hj)
        simpa using this)
    rw [hrec]
    simp

theorem sortQ_sorted (u : Vec) : List.Sorted (· ≤ ·) (sortQ u) := by
  unfold sortQ argsorted
  have h := List.sorted_insertionSort keyLe (pairsOf u)
  rw [List.Sorted] at h ⊢
  rw [List.pairwise_map]
  exact h

theorem sorted_getD_mono (s : List ℚ) (hs : List.Sorted (· ≤ ·) s) (i j : ℕ)
    (hij : i ≤ j) (hj : j < s.length) : s.getD i 0 ≤ s.getD j 0 := by
  rcases Nat.eq_or_lt_of_le hij with rfl | hlt
  · exact le_refl _
  · have hi : i < s.length := lt_trans hlt hj
    rw [List.getD_eq_getElem?_getD, List.getElem?_eq_getElem hi,
        List.getD_eq_getElem?_getD, List.getElem?_eq_getElem hj]
    have hp := List.pairwise_iff_getElem.mp hs
    exact hp i j hi hj hlt

theorem countP_id_map_decide (u : List ℚ) (q : ℚ) :
    ((u.map (fun z => decide (z ≤ q))).countP id) = u.countP (fun z => decide (z ≤ q)) := by
  induction u with
  | nil => rfl
  | cons a as ih =>
    simp only [List.map_cons, List.countP_cons, ih, id]

theorem maskSel_length {α : Type} :
    ∀ (mask : List Bool) (l : List α), mask.length = l.length →
      (maskSel mask l).length = mask.countP id
  | [], [], _ => rfl
  | [], _ :: _, h => absurd h (by simp)
  | _ :: _, [], h => absurd h (by simp)
  | b :: ms, a :: as, h => by
    unfold maskSel
    rw [List.zip_cons_cons, List.filterMap_cons]
    have ih := maskSel_length ms as (by simpa using h)
    unfold maskSel at ih
    cases b <;> simp [List.countP_cons, ih]

theorem maskSelNot_length {α : Type} :
    ∀ (mask : List Bool) (l : List α), mask.length = l.length →
      (maskSelNot mask l).length = mask.countP (fun b => !b)
  | [], [], _ => rfl
  | [], _ :: _, h => absurd h (by simp)
  | _ :: _, [], h => absurd h (by simp)
  | b :: ms, a :: as, h => by
    unfold maskSelNot
    rw [List.zip_cons_cons, List.filterMap_cons]
    have ih := maskSelNot_length ms as (by simpa using h)
    unfold maskSelNot at ih
    cases b <;> simp [List.countP_cons, ih]

theorem countP_not_add (mask : List Bool) :
    mask.countP id + mask.countP (fun b => !b) = mask.length := by
  induction mask with
  | nil => rfl
  | cons b ms ih =>
    rw [List.countP_cons, List.countP_cons, List.length_cons]
    cases b <;> simp [← ih] <;> omega

theorem mplSlice_bounds (n i mpl : ℕ) (hmpl : 1 ≤ mpl) (hin : i < n)
    (h1 : inPySlice n 0 ((mpl : ℤ) - 1) i = false)
    (h2 : inPySlice n ((n : ℤ) - 1 - ((mpl : ℤ) - 1)) (n : ℤ) i = false) :
    mpl ≤ i + 1 ∧ i + 1 + mpl ≤ n := by
  unfold inPySlice pySliceIdx at h1 h2
  dsimp only at h1 h2
  rw [if_neg (by omega : ¬ ((mpl : ℤ) - 1 < 0)), if_neg (by omega : ¬ ((0 : ℤ) < 0))] at h1
  rw [if_neg (by omega : ¬ ((n : ℤ) < 0))] at h2
  by_cases hc : ((n : ℤ) - 1 - ((mpl : ℤ) - 1) < 0)
  · -- mpl > n: then the first mask covers every index, contradicting h1
    rw [if_pos hc] at h2
    simp only [Bool.and_eq_false_iff, decide_eq_false_iff_not, not_le, not_lt] at h1 h2
    omega
  · rw [if_neg hc] at h2
    simp only [Bool.and_eq_false_iff, decide_eq_false_iff_not, not_le, not_lt] at h1 h2
    omega

theorem dirGains_some_bounds (env : Env) (o : Options) (y : Mat) (u : Vec)
    (gains : List (Option ℚ)) (hok : dirGains env o y u = .ok gains) (i : ℕ) (gi : ℚ)
    (hg : gains.getD i none = some gi) :
    i < u.length ∧
      inPySlice u.length 0 ((o.minPointsLeaf : ℤ) - 1) i = false ∧
      inPySlice u.length ((u.length : ℤ) - 1 - ((o.minPointsLeaf : ℤ) - 1))
        (u.length : ℤ) i = false := by
  unfold dirGains at hok
  split at hok
  · simp at hok
  · split at hok
    · simp at hok
    · split at hok
      · simp at hok
      · injection hok with he
        rw [← he] at hg
        rw [getD_map_range] at hg
        split at hg
        · rename_i hilt
          refine ⟨hilt, ?_⟩
          split at hg
          · simp at hg
          · rename_i hA
            have hA2 := Bool.eq_false_iff.mpr hA
            rw [Bool.or_eq_false_iff] at hA2
            exact hA2
        · simp at hg

theorem pickAndPartition_split_minleaf (env : Env) (o : Options) (y : Mat)
    (uTrain projMat : Mat) (nd : ℕ) (rs : List (Option ℚ × ℕ)) (t1 t2 : ℕ)
    (pm : Mat) (iDir : ℕ) (pp : ℚ) (mask : List Bool) (t3 : ℕ)
    (hEnv : EnvOK env) (htol : 0 ≤ o.XVariationTol) (hmpl : 1 ≤ o.minPointsLeaf)
    (hlen : rs.length = nd)
    (hcorr : ∀ d < nd,
      dirSplit env (t1 + d) o y (colOf uTrain d) = .ok (rs.getD d (none, 1)))
    (hok : pickAndPartition env o uTrain projMat nd rs t2 =
      .ok (.split pm iDir pp mask, t3)) :
    mask.length = (colOf uTrain iDir).length ∧
    o.minPointsLeaf ≤ mask.countP id ∧
    o.minPointsLeaf ≤ mask.countP (fun b => !b) := by
  unfold pickAndPartition at hok
  dsimp only at hok
  cases hm : optMax (rs.map Prod.fst) with
  | none => rw [hm] at hok; simp at hok
  | some g =>
    rw [hm] at hok
    dsimp only at hok
    split at hok
    · simp at hok
    · cases hsel : selectDir env o t2 (rs.map Prod.fst) nd g with
      | error e => rw [hsel] at hok; simp at hok
      | ok p =>
        rcases p with ⟨iDir0, t30⟩
        rw [hsel] at hok
        dsimp only at hok
        split at hok
        · simp at hok
        · rename_i hcond
          simp only [Except.ok.injEq, Prod.mk.injEq, GS.split.injEq] at hok
          obtain ⟨⟨hpmEq, hdirEq, hppEq, hmaskEq⟩, ht3Eq⟩ := hok
          have hdirEq2 : iDir = iDir0 := hdirEq.symm
          subst hdirEq2
          -- the standard chain identifying the drawn cut of the chosen direction
          have hmlen : (rs.map Prod.fst).length = nd := by rw [List.length_map, hlen]
          have hne := dirTiesOf_nonempty _ nd g hm hmlen
          have hiDir : iDir ∈ dirTiesOf (rs.map Prod.fst) nd g :=
            selectDir_ok_mem env o t2 _ nd g iDir t30 hEnv hne hsel
          obtain ⟨hdlt, gd, hgd, -⟩ := dirTiesOf_mem_gain _ _ _ _ hiDir
          have hdlt2 : iDir < rs.length := by rw [hlen]; exact hdlt
          have hfst : (rs.map Prod.fst).getD iDir none = (rs.getD iDir (none, 1)).1 :=
            getD_map_of_lt Prod.fst rs iDir none (none, 1) hdlt2
          have hsnd : (rs.map Prod.snd).getD iDir 0 = (rs.getD iDir (none, 1)).2 :=
            getD_map_of_lt Prod.snd rs iDir 0 (none, 1) hdlt2
          have hds := hcorr iDir hdlt
          rcases hrd : rs.getD iDir (none, 1) with ⟨gOpt, isp⟩
          rw [hrd] at hds hfst hsnd
          dsimp only at hfst hsnd
          rw [hfst] at hgd
          subst hgd
          obtain ⟨gains, hdg, gi, hgi, -⟩ :=
            dirSplit_ok_some env (t1 + iDir) o y (colOf uTrain iDir) gd isp hEnv hds
          rw [getD_take] at hgi
          by_cases hlt : isp < (colOf uTrain iDir).length - 1
          · rw [if_pos hlt] at hgi
            obtain ⟨hbound, hgap⟩ :=
              dirGains_gap env o y (colOf uTrain iDir) gains hdg isp gi hgi
            obtain ⟨hin, hsl1, hsl2⟩ :=
              dirGains_some_bounds env o y (colOf uTrain iDir) gains hdg isp gi hgi
            obtain ⟨hb1, hb2⟩ :=
              mplSlice_bounds (colOf uTrain iDir).length isp o.minPointsLeaf hmpl hin hsl1 hsl2
            rw [hsnd] at hmaskEq hppEq
            have hslen : (sortQ (colOf uTrain iDir)).length = (colOf uTrain iDir).length :=
              sortQ_length _
            have hisp1 : isp + 1 < (sortQ (colOf uTrain iDir)).length := by
              rw [hslen]; exact hbound
            have hisp0 : isp < (sortQ (colOf uTrain iDir)).length := by omega
            simp only [getD_map_of_lt
                  (fun z => z - (sortQ (colOf uTrain iDir)).getD isp 0) _ isp 0 0 hisp0,
                getD_map_of_lt
                  (fun z => z - (sortQ (colOf uTrain iDir)).getD isp 0) _ (isp + 1) 0 0 hisp1]
              at hppEq hmaskEq
            set a := (sortQ (colOf uTrain iDir)).getD isp 0 with ha
            set b := (sortQ (colOf uTrain iDir)).getD (isp + 1) 0 with hb
            have h0 : (0 : ℚ) < b - a := lt_of_le_of_lt htol hgap
            have hppa : a ≤ (a - a) * (1 / 2) + (b - a) * (1 / 2) + a := by linarith
            -- count of rows routed left equals isp + 1
            have hsorted := sortQ_sorted (colOf uTrain iDir)
            have hcount : (sortQ (colOf uTrain iDir)).countP
                (fun z => decide (z ≤ (a - a) * (1 / 2) + (b - a) * (1 / 2) + a)) = isp + 1 := by
              apply countP_split _ (0 : ℚ) _ (isp + 1) (by omega)
              · intro j hj
                have hmono := sorted_getD_mono _ hsorted j isp (by omega) hisp0
                rw [← ha] at hmono
                simp only [decide_eq_true_eq]
                exact le_trans hmono hppa
              · intro j hjm hj
                have hmono := sorted_getD_mono _ hsorted (isp + 1) j hjm hj
                rw [← hb] at hmono
                simp only [decide_eq_false_iff_not, not_le]
                have hppltb : (a - a) * (1 / 2) + (b - a) * (1 / 2) + a < b := by linarith
                exact lt_of_lt_of_le hppltb hmono
            have hcountU : (colOf uTrain iDir).countP
                (fun z => decide (z ≤ (a - a) * (1 / 2) + (b - a) * (1 / 2) + a)) = isp + 1 := by
              rw [← (sortQ_perm (colOf uTrain iDir)).countP_eq]
              exact hcount
            rw [← hmaskEq]
            refine ⟨List.length_map _ _, ?_, ?_⟩
            · rw [countP_id_map_decide, hcountU]
              exact hb1
            · have hlenmask :
                  ((colOf uTrain iDir).map
                    (fun z => decide (z ≤ (a - a) * (1 / 2) + (b - a) * (1 / 2) + a))).length =
                    (colOf uTrain iDir).length := List.length_map _ _
              have hadd := countP_not_add ((colOf uTrain iDir).map
                (fun z => decide (z ≤ (a - a) * (1 / 2) + (b - a) * (1 / 2) + a)))
              rw [hlenmask, countP_id_map_decide, hcountU] at hadd
              omega
          · rw [if_neg hlt] at hgi
            exact absurd hgi (by simp)

theorem colOf_length (m : Mat) (j : ℕ) : (colOf m j).length = m.length :=
  List.length_map _ _

theorem subCols_length (m : Mat) (idx : List ℕ) : (subCols m idx).length = m.length :=
  List.length_map _ _

theorem matMul_length (a b : Mat) : (matMul a b).length = a.length :=
  List.length_map _ _

theorem searchStage_split_minleaf (env : Env) (o : Options) (y : Mat)
    (projMat0 uTrain0 : Mat) (t1 : ℕ) (pm : Mat) (iDir : ℕ) (pp : ℚ)
    (mask : List Bool) (t3 : ℕ)
    (hEnv : EnvOK env) (htol : 0 ≤ o.XVariationTol) (hmpl : 1 ≤ o.minPointsLeaf)
    (hok : searchStage env o y projMat0 uTrain0 t1 = .ok (.split pm iDir pp mask, t3)) :
    mask.length = uTrain0.length ∧
    o.minPointsLeaf ≤ mask.countP id ∧
    o.minPointsLeaf ≤ mask.countP (fun b => !b) := by
  unfold searchStage at hok
  dsimp only at hok
  split at hok
  · simp at hok
  · split at hok
    · simp at hok
    · rename_i rs hmap
      obtain ⟨hrlen, hall⟩ := mapM_ok_getD _ _ _ hmap 0 (none, 1)
      rw [List.length_range] at hrlen
      have hcorr : ∀ d < (maskSel ((List.range (nCols projMat0)).map
            (fun j => colVaries o.XVariationTol (colOf uTrain0 j)))
            (List.range (nCols projMat0))).length,
          dirSplit env (t1 + d) o y
            (colOf (subCols uTrain0 (maskSel ((List.range (nCols projMat0)).map
              (fun j => colVaries o.XVariationTol (colOf uTrain0 j)))
              (List.range (nCols projMat0)))) d) = .ok (rs.getD d (none, 1)) := by
        intro d hd
        have := hall d (by rw [List.length_range]; exact hd)
        rw [getD_range_of_lt _ _ _ hd] at this
        exact this
      obtain ⟨h1, h2, h3⟩ := pickAndPartition_split_minleaf env o y _ _ _ rs t1 _
        pm iDir pp mask t3 hEnv htol hmpl hrlen hcorr hok
      refine ⟨?_, h2, h3⟩
      rw [h1, colOf_length, subCols_length]

/-- C2 (amended): every internal node produced through the general
split-search path respects the minimum-leaf constraint — the left/right
assignment covers all rows of the node's sample and routes at least
`minPointsLeaf` training rows to each side (the cut survives the
`-inf` masking of lines 296-298).  Stop-condition leaves and the two-point
path are not covered by this guarantee. -/
theorem generalSplit_children_minleaf (env : Env) (t : ℕ) (x y : Mat) (o : Options)
    (iIn : List ℕ) (xBag yBag : Mat) (pm : Mat) (iDir : ℕ) (pp : ℚ)
    (mask : List Bool) (t3 : ℕ)
    (hEnv : EnvOK env) (htol : 0 ≤ o.XVariationTol) (hmpl : 1 ≤ o.minPointsLeaf)
    (hok : generalSplit env t x y o iIn xBag yBag = .ok (.split pm iDir pp mask, t3)) :
    mask.length = x.length ∧
    o.minPointsLeaf ≤ (maskSel mask x).length ∧
    o.minPointsLeaf ≤ (maskSelNot mask x).length := by
  unfold generalSplit at hok
  rcases hp : projStage env t x o iIn xBag yBag with ⟨pm0, u0, t1⟩
  rw [hp] at hok
  dsimp only at hok
  obtain ⟨hlen, h2, h3⟩ := searchStage_split_minleaf _ _ _ _ _ _ _ _ _ _ _
    hEnv htol hmpl hok
  have hu0 : u0.length = x.length := by
    unfold projStage at hp
    split at hp
    · simp only [Prod.mk.injEq] at hp
      obtain ⟨-, hu, -⟩ := hp
      rw [← hu, matMul_length, List.length_map, subCols_length]
    · simp only [Prod.mk.injEq] at hp
      obtain ⟨-, hu, -⟩ := hp
      rw [← hu, matMul_length, subCols_length]
  rw [hu0] at hlen
  refine ⟨hlen, ?_, ?_⟩
  · rw [maskSel_length mask x hlen]; exact h2
  · rw [maskSelNot_length mask x hlen]; exact h3

/-- C1 (amended): a `growCCT` call that returns normally produces a leaf if
and only if the full condition list of `leafDecision` holds: the stop check
(point count below `max(2, minPointsForSplit, 2*minPointsLeaf)`, numeric
maximum depth exceeded, or the depth-490 `stack` guard), no output
variation, no surviving varying feature, a degenerate projection-bootstrap
sample without `bContinueProjBootDegenerate`, the two-point path yielding no
margin split, or the general path finding no varying projected direction or
no candidate split of non-negative gain; in every other normal case the
result is an internal node. -/
theorem growCCT_leaf_iff (env : Env) (fuel : ℕ) (x y : Mat) (o : Options) (fs : FeatState)
    (depth t : ℕ) (tr : Tree) (fs2 : FeatState) (t2 : ℕ)
    (hok : growCCT env (fuel + 1) x y o fs depth t = .ok (tr, fs2, t2)) :
    tr.isLeaf = leafDecision env x y o fs depth t := by
  rcases hsub : subsampleFeatures env x o fs t with ⟨iIn, fs1, t1⟩
  simp only [growCCT, leafDecision, hsub] at hok ⊢
  split at hok
  · rename_i h1
    simp only [Except.ok.injEq, Prod.mk.injEq] at hok
    obtain ⟨he, -, -⟩ := hok; subst he
    simp [setupLeaf, Tree.isLeaf, h1]
  · split at hok
    · rename_i h1 h2
      simp only [Except.ok.injEq, Prod.mk.injEq] at hok
      obtain ⟨he, -, -⟩ := hok; subst he
      simp [setupLeaf, Tree.isLeaf, h1, h2]
    · rename_i h1 h2
      split at hok
      · rename_i h3
        simp only [Except.ok.injEq, Prod.mk.injEq] at hok
        obtain ⟨he, -, -⟩ := hok; subst he
        simp [setupLeaf, Tree.isLeaf, h1, h2, h3]
      · rename_i h3
        rcases hbag : bagStage env x y o iIn t1 with ⟨xb0, yb0, tb⟩
        rw [hbag] at hok
        dsimp only at hok ⊢
        split at hok
        · rename_i h4
          simp only [Except.ok.injEq, Prod.mk.injEq] at hok
          obtain ⟨he, -, -⟩ := hok; subst he
          simp [setupLeaf, Tree.isLeaf, h1, h2, h3, h4]
        · rename_i h4
          rcases hfb : bagFallback x y iIn xb0 yb0 (degenBag o o.bProjBoot xb0 yb0) with ⟨xBag, yBag⟩
          rw [hfb] at hok
          dsimp only at hok ⊢
          split at hok
          · rename_i h5
            split at hok
            · rename_i htp
              rw [htp]
              simp only [Except.ok.injEq, Prod.mk.injEq] at hok
              obtain ⟨he, -, -⟩ := hok; subst he
              simp [setupLeaf, Tree.isLeaf, h1, h2, h3, h4, h5]
            · rename_i htp
              rw [htp]
              split at hok
              · exact absurd hok (by simp)
              · split at hok
                · exact absurd hok (by simp)
                · simp only [Except.ok.injEq, Prod.mk.injEq] at hok
                  obtain ⟨he, -, -⟩ := hok; subst he
                  simp [Tree.isLeaf, h1, h2, h3, h4, h5]
          · rename_i h5
            split at hok
            · exact absurd hok (by simp)
            · rename_i hgs; rw [hgs]
              simp only [Except.ok.injEq, Prod.mk.injEq] at hok
              obtain ⟨he, -, -⟩ := hok; subst he
              simp [setupLeaf, Tree.isLeaf, h1, h2, h3, h4, h5]
            · rename_i hgs; rw [hgs]
              simp only [Except.ok.injEq, Prod.mk.injEq] at hok
              obtain ⟨he, -, -⟩ := hok; subst he
              simp [setupLeaf, Tree.isLeaf, h1, h2, h3, h4, h5]
            · rename_i hgs
              rw [hgs]
              split at hok
              · exact absurd hok (by simp)
              · split at hok
                · exact absurd hok (by simp)
                · simp only [Except.ok.injEq, Prod.mk.injEq] at hok
                  obtain ⟨he, -, -⟩ := hok; subst he
                  simp [Tree.isLeaf, h1, h2, h3, h4, h5]

/-- C1 (counterexample to the claim as stated): with projection
bootstrapping enabled, `bContinueProjBootDegenerate` disabled and a
bootstrap draw that repeats row 0, `growCCT` on four perfectly separable
points returns a leaf although none of the claim's four stated stop
conditions holds (in particular a candidate split of positive gain exists
over the surviving projected direction). -/
theorem growCCT_leaf_beyond_claimed_conditions :
    growCCT envPick0 1 xFour yAABB { optBase with bProjBoot := true } fsOne 0 0 =
      .ok (Tree.leaf 4 [1 / 2, 1 / 2], fsOne, 2) ∧
    claimedLeafConditions envPick0 xFour yAABB { optBase with bProjBoot := true }
      fsOne 0 0 = false := by
  constructor
  · with_unfolding_all decide
  · with_unfolding_all decide

/-- C1 (witness for the amended theorem): the characterization applied to
the concrete degenerate-bootstrap run. -/
theorem growCCT_leaf_iff_witness :
    (Tree.leaf 4 [1 / 2, 1 / 2]).isLeaf =
      leafDecision envPick0 xFour yAABB { optBase with bProjBoot := true } fsOne 0 0 :=
  growCCT_leaf_iff envPick0 0 xFour yAABB { optBase with bProjBoot := true } fsOne 0 0
    (Tree.leaf 4 [1 / 2, 1 / 2]) fsOne 2 (by with_unfolding_all decide)

/-- C7 (counterexample to the claim as stated): with an unsupported split
criterion, an invalid tie-break policy and an invalid multi-task combination
mode all configured at once, growing a one-point tree succeeds with a leaf
and raises no error at all, so the build does not fail fast before any tree
is grown. -/
theorem growCCT_invalid_options_no_failfast :
    growCCT envPick0 1 [[0]] [[1, 0]] optInvalid fsOne 0 0 =
      .ok (Tree.leaf 1 [1, 0], fsOne, 0) ∧
    optInvalid.splitCriterion ≠ "gini" ∧ optInvalid.splitCriterion ≠ "info" ∧
    optInvalid.dirIfEqual ≠ "rand" ∧ optInvalid.dirIfEqual ≠ "first" ∧
    optInvalid.multiTaskGainCombination ≠ "mean" ∧
    optInvalid.multiTaskGainCombination ≠ "max" := by
  refine ⟨?_, ?_, ?_, ?_, ?_, ?_, ?_⟩ <;> with_unfolding_all decide

/-- C7 (amended): the three option checks are assertions inside the split
search, raised lazily during tree growth when the corresponding code path is
reached, never before: (1) the invalid `multiTaskGainCombination` assertion
is unreachable — `growCCT` never produces it (the single-output path sums
gains without consulting the mode, and the grouped multi-task path fails
on its numpy index/keyword errors first); (2) an unsupported split criterion
raises its assertion exactly when the per-direction split search runs (on
multi-column outputs without `bSepPred`); (3) an invalid tie-break policy
raises its assertion exactly when direction selection runs. -/
theorem growCCT_option_asserts_lazy :
    (∀ env fuel x y o fs depth t,
      growCCT env fuel x y o fs depth t ≠ .error .invalidMultiTask) ∧
    (∀ env t o y u, (nCols y == 1 || o.bSepPred) = false →
      (o.splitCriterion == "gini" || o.splitCriterion == "info") = false →
      dirSplit env t o y u = .error .invalidSplitCriterion) ∧
    (∀ env o t2 gains nd g, (o.dirIfEqual == "rand") = false →
      (o.dirIfEqual == "first") = false →
      selectDir env o t2 gains nd g = .error .invalidDirIfEqual) := by
  refine ⟨growCCT_not_multiTask, ?_, ?_⟩
  · intro env t o y u hy hc
    unfold dirSplit
    rw [dirGains_invalid_criterion env o y u hy hc]
  · intro env o t2 gains nd g h1 h2
    unfold selectDir
    simp [h1, h2]

/-- C7 (witness): the amended theorem applied at concrete inputs — a normal
run never yields the multi-task error, an invalid criterion errors when the
split search runs, and an invalid policy errors when direction selection
runs. -/
theorem growCCT_option_asserts_lazy_witness :
    growCCT envPick0 1 xFour yAABB optBase fsOne 0 0 ≠ .error .invalidMultiTask ∧
    dirSplit envPick0 0 { optBase with splitCriterion := "bogus" } yAABB [0, 1, 2, 3] =
      .error .invalidSplitCriterion ∧
    selectDir envPick0 { optBase with dirIfEqual := "bogus" } 0 [some 1] 1 1 =
      .error .invalidDirIfEqual :=
  ⟨growCCT_option_asserts_lazy.1 envPick0 1 xFour yAABB optBase fsOne 0 0,
   growCCT_option_asserts_lazy.2.1 envPick0 0 _ yAABB [0, 1, 2, 3]
     (by with_unfolding_all decide) (by with_unfolding_all decide),
   growCCT_option_asserts_lazy.2.2 envPick0 _ 0 [some 1] 1 1
     (by with_unfolding_all decide) (by with_unfolding_all decide)⟩

/-- C3 (counterexample to the claim as stated): on four points with labels
A, B, A, B the cut gains along the single direction are `1/6, 0, 1/6`, so
cuts 0 and 2 tie for the maximum; under the configured policy `first` the
claim predicts the first tied cut (index 0, partition point `1/2`), but the
code draws uniformly (here the draw picks the last tie) and splits at cut 2
with partition point `5/2`, as the grown tree records. -/
theorem cutTie_rand_under_first_policy :
    optBase.dirIfEqual = "first" ∧
    dirGains envPickLast optBase yABAB [0, 1, 2, 3] =
      .ok [some (1 / 6), some 0, some (1 / 6), none] ∧
    cutTies [some (1 / 6), some 0, some (1 / 6)] (1 / 6) = [0, 2] ∧
    claimedCutChoice envPickLast optBase 2 [0, 2] = 0 ∧
    dirSplit envPickLast 2 optBase yABAB [0, 1, 2, 3] = .ok (some (1 / 6), 2) ∧
    growCCT envPickLast 5 xFour yABAB optBase fsOne 0 0 =
      .ok (Tree.node 4 [1 / 2, 1 / 2] [0] [1] (5 / 2)
        (Tree.node 3 [2 / 3, 1 / 3] [0] [1] (3 / 2)
          (Tree.leaf 2 [1 / 2, 1 / 2]) (Tree.leaf 1 [1, 0]))
        (Tree.leaf 1 [0, 1]), fsOne, 8) := by
  refine ⟨rfl, ?_, ?_, ?_, ?_, ?_⟩ <;> with_unfolding_all decide

/-- C3 (amended): the uniform random draw of line 306 breaks cut-point ties
regardless of the configured policy — the per-direction split search does
not consult `dirIfEqual` at all — while the policy governs only the tie
between directions: `first` picks the first tied direction and `rand` picks
a uniformly drawn one. -/
theorem cutChoice_random_dirChoice_policy :
    (∀ env t o y u s,
      dirSplit env t { o with dirIfEqual := s } y u = dirSplit env t o y u) ∧
    (∀ env o t2 gains nd g, o.dirIfEqual = "first" →
      selectDir env o t2 gains nd g =
        .ok (if (dirTiesOf gains nd g).isEmpty then 0
          else (dirTiesOf gains nd g).headD 0, t2)) ∧
    (∀ env o t2 gains nd g, o.dirIfEqual = "rand" →
      selectDir env o t2 gains nd g =
        .ok ((dirTiesOf gains nd g).getD (env.randint t2 (dirTiesOf gains nd g).length) 0,
          t2 + 1)) := by
  refine ⟨fun env t o y u s => rfl, ?_, ?_⟩
  · intro env o t2 gains nd g h
    unfold selectDir
    simp [h]
  · intro env o t2 gains nd g h
    unfold selectDir
    simp [h]

/-- C3 (witness): the amended theorem applied at concrete inputs. -/
theorem cutChoice_random_dirChoice_policy_witness :
    dirSplit envPickLast 2 { optBase with dirIfEqual := "rand" } yABAB [0, 1, 2, 3] =
      dirSplit envPickLast 2 optBase yABAB [0, 1, 2, 3] ∧
    selectDir envPick0 optBase 0 [some 1] 1 1 =
      .ok (if (dirTiesOf [some 1] 1 1).isEmpty then 0
        else (dirTiesOf [some 1] 1 1).headD 0, 0) :=
  ⟨cutChoice_random_dirChoice_policy.1 envPickLast 2 optBase yABAB [0, 1, 2, 3] "rand",
   cutChoice_random_dirChoice_policy.2.1 envPick0 optBase 0 [some 1] 1 1 rfl⟩

/-- C2 (counterexample to the claim as stated): a one-row training set with
`minPointsLeaf = 5` produces a leaf holding a single row, fewer than the
configured minimum, so not every configuration keeps every leaf at or above
`minPointsLeaf` rows. -/
theorem growCCT_leaf_below_minPointsLeaf :
    growCCT envPick0 1 [[0]] [[1, 0]] { optBase with minPointsLeaf := 5 } fsOne 0 0 =
      .ok (Tree.leaf 1 [1, 0], fsOne, 0) ∧
    (1 : ℕ) < ({ optBase with minPointsLeaf := 5 } : Options).minPointsLeaf := by
  constructor
  · with_unfolding_all decide
  · decide

/-- C2 (witness): the amended theorem applied to a concrete general-path
split of four points. -/
theorem generalSplit_children_minleaf_witness :
    ([true, true, false, false] : List Bool).length = xFour.length ∧
    optBase.minPointsLeaf ≤ (maskSel [true, true, false, false] xFour).length ∧
    optBase.minPointsLeaf ≤ (maskSelNot [true, true, false, false] xFour).length :=
  generalSplit_children_minleaf envPick0 1 xFour yAABB optBase [0]
    (subCols xFour [0]) yAABB [[1]] 0 (3 / 2) [true, true, false, false] 3
    (fun _ _ h => h) (le_refl 0) (le_refl 1) (by with_unfolding_all decide)

end CCFS

namespace CCFS

/-! ## NaN persistence of the feature-grouping state (claim C10) -/

theorem nanMask_none (fs : FeatState) (idx : List ℕ) (bv : List Bool) (j : ℕ)
    (h : fs.getD j none = none) : (nanMask fs idx bv).getD j none = none := by
  unfold nanMask
  rw [getD_map_range]
  split
  · split
    · rfl
    · exact h
  · rfl

theorem subsampleLoop_none (env : Env) (x : Mat) (o : Options) (fuel : ℕ) :
    ∀ iCan indFeat iIn iInNew bXV nSel fs t j, fs.getD j none = none →
      (subsampleLoop env x o fuel iCan indFeat iIn iInNew bXV nSel fs t).2.1.getD j none =
        none := by
  induction fuel with
  | zero =>
    intro iCan indFeat iIn iInNew bXV nSel fs t j h
    exact h
  | succ n ih =>
    intro iCan indFeat iIn iInNew bXV nSel fs t j h
    unfold subsampleLoop
    dsimp only
    split
    · exact h
    · split
      · exact nanMask_none fs iInNew bXV j h
      · exact ih _ _ _ _ _ _ _ _ j (nanMask_none fs iInNew bXV j h)

theorem subsampleFeatures_none (env : Env) (x : Mat) (o : Options) (fs : FeatState)
    (t j : ℕ) (h : fs.getD j none = none) :
    (subsampleFeatures env x o fs t).2.1.getD j none = none := by
  unfold subsampleFeatures
  dsimp only
  split
  · exact h
  · exact subsampleLoop_none env x o _ _ _ _ _ _ _ _ _ j h

theorem growCCT_featstate_none (env : Env) (fuel : ℕ) :
    ∀ x y o fs depth t tr fs2 t2,
      growCCT env fuel x y o fs depth t = .ok (tr, fs2, t2) →
      ∀ j, fs.getD j none = none → fs2.getD j none = none := by
  induction fuel with
  | zero =>
    intro x y o fs depth t tr fs2 t2 hok
    exact absurd hok (by simp [growCCT])
  | succ n ih =>
    intro x y o fs depth t tr fs2 t2 hok j h
    rcases hsub : subsampleFeatures env x o fs t with ⟨iIn, fs1, t1⟩
    have hfs1 : fs1.getD j none = none := by
      have h2 := subsampleFeatures_none env x o fs t j h
      rw [hsub] at h2
      exact h2
    simp only [growCCT, hsub] at hok
    split at hok
    · simp only [Except.ok.injEq, Prod.mk.injEq] at hok
      rw [← hok.2.1]
      exact h
    · split at hok
      · simp only [Except.ok.injEq, Prod.mk.injEq] at hok
        rw [← hok.2.1]
        exact h
      · split at hok
        · simp only [Except.ok.injEq, Prod.mk.injEq] at hok
          rw [← hok.2.1]
          exact hfs1
        · rcases hbag : bagStage env x y o iIn t1 with ⟨xb0, yb0, tb⟩
          rw [hbag] at hok
          dsimp only at hok
          split at hok
          · simp only [Except.ok.injEq, Prod.mk.injEq] at hok
            rw [← hok.2.1]
            exact hfs1
          · rcases hfb : bagFallback x y iIn xb0 yb0 (degenBag o o.bProjBoot xb0 yb0) with ⟨xBag, yBag⟩
            rw [hfb] at hok
            dsimp only at hok
            split at hok
            · split at hok
              · simp only [Except.ok.injEq, Prod.mk.injEq] at hok
                rw [← hok.2.1]
                exact hfs1
              · split at hok
                · exact Except.noConfusion hok
                · rename_i lt fsL tL hrecL
                  split at hok
                  · exact Except.noConfusion hok
                  · rename_i rt fsR tR hrecR
                    simp only [Except.ok.injEq, Prod.mk.injEq] at hok
                    rw [← hok.2.1]
                    exact ih _ _ _ _ _ _ _ _ _ hrecR j
                      (ih _ _ _ _ _ _ _ _ _ hrecL j hfs1)
            · split at hok
              · exact Except.noConfusion hok
              · simp only [Except.ok.injEq, Prod.mk.injEq] at hok
                rw [← hok.2.1]
                exact hfs1
              · simp only [Except.ok.injEq, Prod.mk.injEq] at hok
                rw [← hok.2.1]
                exact hfs1
              · split at hok
                · exact Except.noConfusion hok
                · rename_i lt fsL tL hrecL
                  split at hok
                  · exact Except.noConfusion hok
                  · rename_i rt fsR tR hrecR
                    simp only [Except.ok.injEq, Prod.mk.injEq] at hok
                    rw [← hok.2.1]
                    exact ih _ _ _ _ _ _ _ _ _ hrecR j
                      (ih _ _ _ _ _ _ _ _ _ hrecL j hfs1)

end CCFS

namespace RegCCF

theorem genTree_none {T : Type} (env : RegEnv T)
    (hg : ∀ t x y b fs j, fs.getD j none = none →
      (env.growTree t x y b fs).2.getD j none = none)
    (o : RegOptions) (b : Bool) (x y : CCFS.Mat) (fs : CCFS.FeatState)
    (Ntrain pos t j : ℕ) (h : fs.getD j none = none) :
    (genTree env o b x y fs Ntrain pos t).2.1.getD j none = none := by
  unfold genTree
  dsimp only
  exact hg _ _ _ _ _ j h

theorem buildTrees_none {T : Type} (env : RegEnv T)
    (hg : ∀ t x y b fs j, fs.getD j none = none →
      (env.growTree t x y b fs).2.getD j none = none)
    (o : RegOptions) (b : Bool) (x y : CCFS.Mat) (Ntrain : ℕ) :
    ∀ k pos fs t j, fs.getD j none = none →
      (buildTrees env o b x y Ntrain k pos fs t).2.1.getD j none = none := by
  intro k
  induction k with
  | zero =>
    intro pos fs t j h
    exact h
  | succ m ih =>
    intro pos fs t j h
    unfold buildTrees
    dsimp only
    exact ih (pos + 1) _ _ j (genTree_none env hg o b x y fs Ntrain pos t j h)

end RegCCF

namespace CCFS

/-- C10: the in-place NaN-masking of the `iFeatureNum` grouping vector
persists.  (1) The masking of `grow_CCT.py` line 122 writes `none` (NaN)
into every position paired with a no-variation flag; (2) a successful
`growCCT` call never restores a `none` entry of the grouping state — the
state it returns (which the Python caller observes in the mutated array,
and which the grower threads from the left child into the right child, so
an exclusion made in one subtree reaches its sibling) keeps every `none` of
the input state; (3) the sequential forest loop of `generate_CCF.py` lines
274-279 hands the state left by each tree to the next `genTree` call, so
whenever the tree grower preserves `none` entries (as (2) establishes for
the analysed grower), a feature excluded while growing one tree stays
excluded in every subsequently grown tree of the forest. -/
theorem iFeatureNum_nan_persists :
    (∀ (fs : FeatState) (idx : List ℕ) (bv : List Bool) (j : ℕ),
      (List.zip idx bv).any (fun p => p.1 == j && !p.2) = true →
      (nanMask fs idx bv).getD j none = none) ∧
    (∀ (env : Env) (fuel : ℕ) (x y : Mat) (o : Options) (fs : FeatState)
      (depth t : ℕ) (tr : Tree) (fs2 : FeatState) (t2 : ℕ),
      growCCT env fuel x y o fs depth t = .ok (tr, fs2, t2) →
      ∀ j, fs.getD j none = none → fs2.getD j none = none) ∧
    (∀ (T : Type) (env : RegCCF.RegEnv T),
      (∀ t x y b fs j, fs.getD j none = none →
        (env.growTree t x y b fs).2.getD j none = none) →
      ∀ (o : RegCCF.RegOptions) (b : Bool) (x y : Mat) (Ntrain k pos : ℕ)
        (fs : FeatState) (t j : ℕ), fs.getD j none = none →
        (RegCCF.buildTrees env o b x y Ntrain k pos fs t).2.1.getD j none = none) := by
  refine ⟨?_, ?_, ?_⟩
  · intro fs idx bv j hhit
    unfold nanMask
    rw [getD_map_range]
    split
    · simp only [hhit, if_true]
    · rfl
  · intro env fuel x y o fs depth t tr fs2 t2 hok j h
    exact growCCT_featstate_none env fuel x y o fs depth t tr fs2 t2 hok j h
  · intro T env hg o b x y Ntrain k pos fs t j h
    exact RegCCF.buildTrees_none env hg o b x y Ntrain k pos fs t j h

/-- C10 (witness): the persistence theorem applied at concrete inputs — a
masking write at position 1, a one-point `growCCT` run over an
already-masked state, and a one-tree forest loop over the concrete
regression environment. -/
theorem iFeatureNum_nan_persists_witness :
    (nanMask [some 0, some 1] [1] [false]).getD 1 none = none ∧
    ([none] : FeatState).getD 0 none = none ∧
    (RegCCF.buildTrees RegCCF.envReg RegCCF.optReg true [[0]] [[0]] 1 1 0 [none]
        0).2.1.getD 0 none = none :=
  ⟨iFeatureNum_nan_persists.1 [some 0, some 1] [1] [false] 1 (by decide),
   iFeatureNum_nan_persists.2.1 envPick0 1 [[0]] [[1, 0]] optBase [none] 0 0
     (setupLeaf [[1, 0]]) [none] 0 rfl 0 rfl,
   iFeatureNum_nan_persists.2.2 ℕ RegCCF.envReg (fun _ _ _ _ _ _ h => h)
     RegCCF.optReg true [[0]] [[0]] 1 1 0 [none] 0 0 rfl⟩

end CCFS

namespace RegCCF

/-- C5 (the parallel half of the claim fails): every parallel-mode call of
`genCCF` crashes with a `NameError` — line 263 submits the worker function
`gen_tree_parallel`, which is defined nowhere in the module (the shared
per-tree worker is called `genTree`) — so no parallel build ever reaches
the sort-by-position assembly of line 267, for any inputs, options or seed
stream.  (Sequential builds are a pure function of the environment and the
inputs in this embedding, so the sequential-determinism half of the claim
holds by definition.) -/
theorem genCCF_parallel_raises {T : Type} (env : RegEnv T) (x y : CCFS.Mat)
    (nTrees : ℕ) (bReg : Bool) (o : RegOptions) (bKeepTrees : Bool) (t : ℕ) :
    genCCF env x y nTrees bReg o true bKeepTrees t =
      .error .nameErrorGenTreeParallel := rfl

/-- C6: in every successful `genCCF` run, the `outOfBagError` field of the
returned forest is the numeric regression out-of-bag error (the per-column
mean squared difference between the out-of-bag predictions and the
de-normalized outputs) exactly when the resolved bagging flag is on, and
the explanatory placeholder string otherwise.  Trees are always kept
(`bKeepTrees` is forced on at lines 248-250), so the claim's conjunct
"trees were kept" is always satisfied, and `bReg` is forced on (lines
192-193), so the numeric value is always the regression mean squared error
(the separated-prediction misclassification branch of line 308 is dead
code). -/
theorem genCCF_oob_dichotomy {T : Type} (env : RegEnv T) (x y : CCFS.Mat)
    (nTrees : ℕ) (bReg : Bool) (o : RegOptions) (dp bk : Bool) (t : ℕ) (ccf : CCFR T)
    (hok : genCCF env x y nTrees bReg o dp bk t = .ok ccf) :
    (resolvedBag env x o = true →
      ccf.outOfBagError =
        .num (oobErrorVec ccf.trees (yNormOf env y) (stdYOf env y) (grandMean y))) ∧
    (resolvedBag env x o = false → ccf.outOfBagError = .msg oobMsg) ∧
    (ccf.outOfBagError.isNum = true ↔ resolvedBag env x o = true) := by
  unfold genCCF at hok
  dsimp only at hok
  split at hok
  · exact Except.noConfusion hok
  · split at hok
    · exact Except.noConfusion hok
    · injection hok with h2
      have hb1 : (if !bReg then true else bReg) = true := by cases bReg <;> rfl
      have hk : (if !bk then true else bk) = true := by cases bk <;> rfl
      rw [hb1, hk] at h2
      rw [← h2]
      dsimp only
      rcases hbag : resolvedBag env x o with _ | _
      · unfold resolvedBag at hbag
        rw [hbag]
        refine ⟨fun hcon => Bool.noConfusion hcon, fun _ => rfl, ?_⟩
        simp [OOBVal.isNum]
      · unfold resolvedBag at hbag
        rw [hbag]
        refine ⟨fun _ => rfl, fun hcon => Bool.noConfusion hcon, ?_⟩
        simp [OOBVal.isNum]

/-- C6 (witness): the dichotomy applied to a concrete bagged run over the
concrete regression environment: the returned out-of-bag field is numeric. -/
theorem genCCF_oob_dichotomy_witness :
    Except.map (fun c : CCFR ℕ => c.outOfBagError.isNum)
      (genCCF envReg xyTwo xyTwo 1 true optReg false true 0) = .ok true := by
  have hok : isOkE (genCCF envReg xyTwo xyTwo 1 true optReg false true 0) = true := by
    with_unfolding_all decide
  rcases hE : genCCF envReg xyTwo xyTwo 1 true optReg false true 0 with e | c
  · rw [hE] at hok
    simp [isOkE] at hok
  · have h := (genCCF_oob_dichotomy envReg xyTwo xyTwo 1 true optReg false true 0 c hE).1
      (by with_unfolding_all decide)
    simp [Except.map, h, OOBVal.isNum]

/-- C9: the regression module's `genCCF` ignores the `bReg` argument — the
statement `if not bReg: bReg = True` of lines 192-193 forces it on — so a
build requesting classification (`bReg = False`) runs identically to a
regression build, and every returned forest carries `bReg = True`. -/
theorem genCCF_bReg_forced {T : Type} (env : RegEnv T) (x y : CCFS.Mat)
    (nTrees : ℕ) (bReg : Bool) (o : RegOptions) (dp bk : Bool) (t : ℕ) :
    genCCF env x y nTrees bReg o dp bk t = genCCF env x y nTrees true o dp bk t ∧
    ∀ ccf, genCCF env x y nTrees bReg o dp bk t = .ok ccf → ccf.bReg = true := by
  have h1 : genCCF env x y nTrees bReg o dp bk t = genCCF env x y nTrees true o dp bk t := by
    cases bReg <;> rfl
  refine ⟨h1, ?_⟩
  intro ccf hok
  rw [h1] at hok
  unfold genCCF at hok
  dsimp only at hok
  split at hok
  · exact Except.noConfusion hok
  · split at hok
    · exact Except.noConfusion hok
    · injection hok with h2
      rw [← h2]
      rfl

/-- C9 (witness): a concrete classification-requesting run (`bReg = false`)
returns a forest flagged as regression. -/
theorem genCCF_bReg_forced_witness :
    Except.map CCFR.bReg (genCCF envReg xyTwo xyTwo 1 false optReg false false 0) =
      .ok true := by
  have hok : isOkE (genCCF envReg xyTwo xyTwo 1 false optReg false false 0) = true := by
    with_unfolding_all decide
  rcases hE : genCCF envReg xyTwo xyTwo 1 false optReg false false 0 with e | c
  · rw [hE] at hok
    simp [isOkE] at hok
  · have h := (genCCF_bReg_forced envReg xyTwo xyTwo 1 false optReg false false 0).2 c hE
    simp [Except.map, h]

end RegCCF

namespace ForestPred

/-- C8 (failing case): the multi-task argmax of the forest predictor does
not run over the full contiguous probability block of each task.  With task
boundaries `task_ids = [0, 3]` (task 0 owns columns 0-2, task 1 owns column
3), integer class names `[0, 1, 2, 9]` and two test points whose averaged
scores are `[0.1, 0.2, 0.7, 1.0]` and `[0.9, 0.2, 0.7, 1.0]`, the code
slices task 0 as `forestProbs[:, task_ids[0] : task_ids[1] - 1]` (columns
0-1, dropping column 2) and predicts class `1` for the first point, while
the per-task argmax over the full block described by the specification
picks column 2 (score 0.7) and predicts class `2` (the second point agrees
under both readings, and two points keep the squeezed `forestProbs`
two-dimensional; a single test point instead crashes on the
one-dimensional squeezed array, as the third conjunct records). -/
theorem forestPredicts_taskBlock_truncated :
    treeOutputsToForestPredicts (.intsCN [0, 1, 2, 9]) (.arr [0, 3]) false
        [[[1 / 10, 2 / 10, 7 / 10, 1]], [[9 / 10, 2 / 10, 7 / 10, 1]]] =
      .ok (.ints [[1, 0], [0, 0]]) ∧
    specForestPredictsInts [0, 1, 2, 9] [0, 3]
        (forestProbsOf [[[1 / 10, 2 / 10, 7 / 10, 1]], [[9 / 10, 2 / 10, 7 / 10, 1]]]) =
      [[2, 0], [0, 0]] ∧
    treeOutputsToForestPredicts (.intsCN [0, 1, 2, 9]) (.arr [0, 3]) false
        [[[1 / 10, 2 / 10, 7 / 10, 1]]] = .error .squeezedProbs := by
  refine ⟨?_, ?_, ?_⟩ <;> with_unfolding_all decide

end ForestPred
